import Mathlib

/-!
Verification development for the yCard repository.

We give a shallow embedding of the core of the code base:
* the vCard 4.0 wire codec (`parseVCard` / `stringifyVCard`),
* the Zod person/job schemas with alias resolution (`personSafeParse`, `jobSafeParse`),
* the conversion layer (`yCardToVCard`, `vCardToYCard` and friends),

and prove / refute the frozen claims about them.  JavaScript strings are
modelled as lists of characters (`Str`), JavaScript optional / nullable
values as small inductive types with an explicit truthiness predicate
(JS `||` chains are modelled by `jsOr*`).
-/

set_option maxHeartbeats 1000000

deriving instance DecidableEq for Except

abbrev Str := List Char

/-- The ASCII whitespace characters trimmed by `String.prototype.trim`
(we model the ASCII subset actually arising in the codec). -/
def isWS (c : Char) : Bool :=
  c = ' ' || c = '\t' || c = '\n' || c = '\r' || c = '\x0b' || c = '\x0c'

/-- Drop leading whitespace (one side of `trim`). -/
def dropWS : Str → Str
  | [] => []
  | a :: t => if isWS a then dropWS t else a :: t

/-- JavaScript `line.trim()`: drop whitespace from both ends. -/
def trimWS (s : Str) : Str := ((dropWS s).reverse |> dropWS).reverse

/-- JavaScript `s.split(c)` for a single-character separator. -/
def splitOnChar (c : Char) : Str → List Str
  | [] => [[]]
  | a :: t =>
    if a = c then [] :: splitOnChar c t
    else
      match splitOnChar c t with
      | h :: r => (a :: h) :: r
      | [] => [[a]]

/-- Split a string at the first occurrence of `c` (JS `indexOf` + two
`substring`s); `none` when `c` does not occur. -/
def splitFirst (c : Char) : Str → Option (Str × Str)
  | [] => none
  | a :: t =>
    if a = c then some ([], t)
    else (splitFirst c t).map (fun p => (a :: p.1, p.2))

/-- JavaScript `Array.prototype.join(sep)`. -/
def joinSep (sep : Str) : List Str → Str
  | [] => []
  | [l] => l
  | l :: ls => l ++ sep ++ joinSep sep ls

/-- One pass of JS `String.replace` with a global single-character pattern:
every occurrence of `c` becomes `r`. -/
def repl1 (c : Char) (r : Str) : Str → Str
  | [] => []
  | a :: t => (if a = c then r else [a]) ++ repl1 c r t

/-- One pass of JS `String.replace` with a global two-character literal
pattern `a b`, scanned left to right without overlap. -/
def repl2 (a b : Char) (r : Str) : Str → Str
  | [] => []
  | [x] => [x]
  | x :: y :: t =>
    if x = a ∧ y = b then r ++ repl2 a b r t
    else x :: repl2 a b r (y :: t)

/-- Embedding of `escapeVCardValue` from src/unnamed/part_002: four sequential global
replaces, `\` then `,` then `;` then newline. -/
def escapeVCardValue (s : Str) : Str :=
  repl1 '\n' ['\\', 'n']
    (repl1 ';' ['\\', ';']
      (repl1 ',' ['\\', ',']
        (repl1 '\\' ['\\', '\\'] s)))

/-- Embedding of `unescapeVCardValue` from src/unnamed/part_002: four sequential global
replaces of two-character escape sequences, `\n` then `\;` then `\,` then `\\`. -/
def unescapeVCardValue (s : Str) : Str :=
  repl2 '\\' '\\' ['\\']
    (repl2 '\\' ',' [',']
      (repl2 '\\' ';' [';']
        (repl2 '\\' 'n' ['\n'] s)))

/-- An `EMAIL`/`TEL` entry: `{ value: string; type?: string }`. -/
structure EmailEntry where
  value : Str
  type? : Option Str
deriving DecidableEq

/-- An `ADR` entry: `{ value: string[]; type?: string }`. -/
structure AdrEntry where
  value : List Str
  type? : Option Str
deriving DecidableEq

/-- The `VCard` interface of src/unnamed/part_002.  All fields are optional
at runtime (the parser accumulates a `Partial<VCard>`), so every field is an
`Option`; a `none` models an absent key. -/
structure VCard where
  version : Option Str := none
  uid : Option Str := none
  fn : Option Str := none
  n : Option (List Str) := none
  title : Option Str := none
  org : Option (List Str) := none
  email : Option (List EmailEntry) := none
  tel : Option (List EmailEntry) := none
  adr : Option (List AdrEntry) := none
  url : Option (List Str) := none
  note : Option Str := none
  categories : Option (List Str) := none
deriving DecidableEq

/-- A parsed property line: `{ name, value, parameters }`. -/
structure VCardProperty where
  name : Str
  value : Str
  params : List (Str × Str)
deriving DecidableEq

/-- Embedding of `parseVCardProperty` from src/unnamed/part_002: split at the first `:`;
the part before is split on `;` into the upper-cased name and `KEY=VALUE`
parameters (parameters without `=` are dropped). -/
def parseVCardProperty (line : Str) : Option VCardProperty :=
  match splitFirst ':' line with
  | none => none
  | some (beforeColon, value) =>
    let parts := splitOnChar ';' beforeColon
    let name := (parts.headD []).map Char.toUpper
    let params := parts.tail.filterMap (fun p => splitFirst '=' p)
    some ⟨name, value, params⟩

/-- JS object parameter lookup `parameters?.TYPE`: the last assignment to a
key wins. -/
def lookupTYPE (params : List (Str × Str)) : Option Str :=
  (params.filter (fun p => p.1 = ("TYPE").data)).getLast?.map (fun p => p.2)

/-- Number of keys present on the accumulated card object
(`Object.keys(currentCard).length`). -/
def VCard.keyCount (c : VCard) : Nat :=
  (if c.version.isSome then 1 else 0) + (if c.uid.isSome then 1 else 0) +
  (if c.fn.isSome then 1 else 0) + (if c.n.isSome then 1 else 0) +
  (if c.title.isSome then 1 else 0) + (if c.org.isSome then 1 else 0) +
  (if c.email.isSome then 1 else 0) + (if c.tel.isSome then 1 else 0) +
  (if c.adr.isSome then 1 else 0) + (if c.url.isSome then 1 else 0) +
  (if c.note.isSome then 1 else 0) + (if c.categories.isSome then 1 else 0)

/-- Embedding of `addPropertyToCard` from src/unnamed/part_002 (the `switch` on the
upper-cased property name; unrecognized names fall through unchanged). -/
def addPropertyToCard (c : VCard) (p : VCardProperty) : VCard :=
  if p.name = ("VERSION").data then { c with version := some p.value }
  else if p.name = ("UID").data then { c with uid := some p.value }
  else if p.name = ("FN").data then { c with fn := some (unescapeVCardValue p.value) }
  else if p.name = ("N").data then
    { c with n := some ((splitOnChar ';' p.value).map unescapeVCardValue) }
  else if p.name = ("TITLE").data then { c with title := some (unescapeVCardValue p.value) }
  else if p.name = ("ORG").data then
    { c with org := some ((splitOnChar ';' p.value).map unescapeVCardValue) }
  else if p.name = ("EMAIL").data then
    { c with email := some ((c.email.getD []) ++ [⟨p.value, lookupTYPE p.params⟩]) }
  else if p.name = ("TEL").data then
    { c with tel := some ((c.tel.getD []) ++ [⟨p.value, lookupTYPE p.params⟩]) }
  else if p.name = ("ADR").data then
    { c with adr := some ((c.adr.getD []) ++
        [⟨(splitOnChar ';' p.value).map unescapeVCardValue, lookupTYPE p.params⟩]) }
  else if p.name = ("URL").data then { c with url := some ((c.url.getD []) ++ [p.value]) }
  else if p.name = ("NOTE").data then { c with note := some (unescapeVCardValue p.value) }
  else if p.name = ("CATEGORIES").data then
    { c with categories := some ((splitOnChar ',' p.value).map trimWS) }
  else c

/-- The empty accumulated card created by a `BEGIN:VCARD` marker
(`currentCard = { version: '4.0' }`). -/
def initCard : VCard := { version := some (("4.0").data) }

/-- The line-by-line loop of `parseVCard`, with the accumulated card list,
the current partial card and the `inCard` flag as explicit state. -/
def parseLoop : List Str → List VCard → VCard → Bool → List VCard
  | [], cards, _, _ => cards
  | line :: rest, cards, cur, inCard =>
    if line = ("BEGIN:VCARD").data then
      parseLoop rest cards initCard true
    else if line = ("END:VCARD").data then
      parseLoop rest (if 1 < cur.keyCount then cards ++ [cur] else cards) cur false
    else if inCard = false ∨ line = [] ∨ line.headD ' ' = '#' then
      parseLoop rest cards cur inCard
    else
      match parseVCardProperty line with
      | some p => parseLoop rest cards (addPropertyToCard cur p) inCard
      | none => parseLoop rest cards cur inCard

/-- Embedding of `parseVCard` from src/unnamed/part_002: split the input on `\n`, trim
every line, and run the record loop. -/
def parseVCard (s : Str) : List VCard :=
  parseLoop ((splitOnChar '\n' s).map trimWS) [] {} false

/-- JS truthiness for an optional string field (`undefined` and `""` are
falsy). -/
def strTruthy : Option Str → Bool
  | none => false
  | some s => !s.isEmpty

/-- JS truthiness of `card.x && card.x.length > 0` for an optional list. -/
def listTruthy {α : Type} : Option (List α) → Bool
  | none => false
  | some l => !l.isEmpty

/-- The `;TYPE=...` segment emitted for an email/tel/adr entry
(`email.type ? \u007f;TYPE=...\u007f : ''`, so an empty type is omitted). -/
def typeSeg (t : Option Str) : Str :=
  match t with
  | some ty => if ty ≠ [] then (";TYPE=").data ++ ty else []
  | none => []

/-- The `UID` line (emitted only for a truthy uid). -/
def uidLines : Option Str → List Str
  | some u => if u ≠ [] then [("UID:").data ++ u] else []
  | none => []

/-- The `FN` line (escaped, emitted only for a truthy full name). -/
def fnLines : Option Str → List Str
  | some f => if f ≠ [] then [("FN:").data ++ escapeVCardValue f] else []
  | none => []

/-- The `N` line: components escaped and joined with `;`. -/
def nLines : Option (List Str) → List Str
  | some comps =>
    if comps ≠ [] then [("N:").data ++ joinSep [';'] (comps.map escapeVCardValue)]
    else []
  | none => []

/-- The `TITLE` line. -/
def titleLines : Option Str → List Str
  | some t => if t ≠ [] then [("TITLE:").data ++ escapeVCardValue t] else []
  | none => []

/-- The `ORG` line: components escaped and joined with `;`. -/
def orgLines : Option (List Str) → List Str
  | some o =>
    if o ≠ [] then [("ORG:").data ++ joinSep [';'] (o.map escapeVCardValue)]
    else []
  | none => []

/-- The repeated `EMAIL`/`TEL` lines (`pre` is the property name). -/
def mailLines (pre : Str) : Option (List EmailEntry) → List Str
  | some es => es.map (fun e => pre ++ typeSeg e.type? ++ ':' :: e.value)
  | none => []

/-- The repeated `ADR` lines: components escaped and joined with `;`. -/
def adrLines : Option (List AdrEntry) → List Str
  | some entries => entries.map (fun a =>
      ("ADR").data ++ typeSeg a.type? ++ ':' :: joinSep [';'] (a.value.map escapeVCardValue))
  | none => []

/-- The repeated `URL` lines (raw values). -/
def urlLines : Option (List Str) → List Str
  | some us => us.map (fun u => ("URL:").data ++ u)
  | none => []

/-- The `NOTE` line. -/
def noteLines : Option Str → List Str
  | some nt => if nt ≠ [] then [("NOTE:").data ++ escapeVCardValue nt] else []
  | none => []

/-- The `CATEGORIES` line: raw values joined with `,`. -/
def catLines : Option (List Str) → List Str
  | some cs => if cs ≠ [] then [("CATEGORIES:").data ++ joinSep [','] cs] else []
  | none => []

/-- The lines emitted for one card by `stringifyVCard`
(src/unnamed/part_002, lines 67-128), in source order. -/
def cardLines (c : VCard) : List Str :=
  ("BEGIN:VCARD").data :: ("VERSION:4.0").data ::
  (uidLines c.uid ++ fnLines c.fn ++ nLines c.n ++ titleLines c.title ++
   orgLines c.org ++ mailLines (("EMAIL").data) c.email ++
   mailLines (("TEL").data) c.tel ++ adrLines c.adr ++ urlLines c.url ++
   noteLines c.note ++ catLines c.categories ++ [("END:VCARD").data])

/-- Embedding of `stringifyVCard` from src/unnamed/part_002: each card's lines joined by
CRLF, cards joined by a blank line. -/
def stringifyVCard (cards : List VCard) : Str :=
  joinSep (('\r' :: '\n' :: '\r' :: '\n' :: [])) (cards.map (fun c => joinSep ['\r', '\n'] (cardLines c)))

def cexSemiCard : VCard :=
  { version := some (("4.0").data), uid := some (("u").data), n := some [("a;b").data] }

/-! ## The Zod schemas (src/unnamed/part_000, `zod-spec`) -/

/-- A JS `string | undefined` field value. -/
inductive JStr where
  | undefined
  | val (s : Str)
deriving DecidableEq

/-- A JS `string | null | undefined` field value (the nullable manager
aliases). -/
inductive JNStr where
  | undefined
  | jnull
  | val (s : Str)
deriving DecidableEq

/-- A JS `string | string[] | undefined` field value (the email union). -/
inductive JEmail where
  | undefined
  | one (s : Str)
  | many (l : List Str)
deriving DecidableEq

/-- A phone entry: bare string or `{type, number}` object. -/
inductive PhoneVal where
  | bare (s : Str)
  | typed (ty number : Str)
deriving DecidableEq

/-- A JS `Phone[] | undefined` field value. -/
inductive JPhones where
  | undefined
  | val (l : List PhoneVal)
deriving DecidableEq

/-- The `AddressSchema` object: five independently optional strings. -/
structure Address where
  street : Option Str := none
  city : Option Str := none
  state : Option Str := none
  postal_code : Option Str := none
  country : Option Str := none
deriving DecidableEq

/-- The `I18nSchema` object: per-field language → translation records. -/
structure I18n where
  displayName : Option (List (Str × Str)) := none
  name : Option (List (Str × Str)) := none
  title : Option (List (Str × Str)) := none
  puesto : Option (List (Str × Str)) := none
  org : Option (List (Str × Str)) := none
  org_unit : Option (List (Str × Str)) := none
  surname : Option (List (Str × Str)) := none
  apellido : Option (List (Str × Str)) := none
deriving DecidableEq

/-- JS truthiness of a `string | undefined` value: `undefined` and `""` are
falsy. -/
def JStr.truthy : JStr → Bool
  | .undefined => false
  | .val s => !s.isEmpty

/-- JS `a || b` on `string | undefined` values. -/
def jsOrS (a b : JStr) : JStr := if a.truthy then a else b

def JNStr.truthy : JNStr → Bool
  | .undefined => false
  | .jnull => false
  | .val s => !s.isEmpty

/-- JS `a || b` on nullable string values. -/
def jsOrN (a b : JNStr) : JNStr := if a.truthy then a else b

/-- Embed a `string | undefined` value into the nullable domain. -/
def JStr.toN : JStr → JNStr
  | .undefined => .undefined
  | .val s => .val s

/-- Truthiness of the email union: any array (even empty) is truthy, a
string is truthy iff nonempty. -/
def JEmail.truthy : JEmail → Bool
  | .undefined => false
  | .one s => !s.isEmpty
  | .many _ => true

/-- JS `a || b` on email-union values. -/
def jsOrE (a b : JEmail) : JEmail := if a.truthy then a else b

/-- Embed a plain string field (the `mail` alias) into the email union. -/
def JStr.toE : JStr → JEmail
  | .undefined => .undefined
  | .val s => .one s

def JPhones.truthy : JPhones → Bool
  | .undefined => false
  | .val _ => true

/-- JS `a || b` on phone-array values (any array is truthy). -/
def jsOrP (a b : JPhones) : JPhones := if a.truthy then a else b

/-- JS `a || b` on optional address objects (any object is truthy). -/
def jsOrA (a b : Option Address) : Option Address := if a.isSome then a else b

/-- Raw input to `JobSchema.safeParse` (well-typed at each declared key;
`none`/`.undefined` model an absent or `undefined` key). -/
structure RawJob where
  role : JStr := .undefined
  title : JStr := .undefined
  fte? : Option ℚ := none
  manager : JStr := .undefined
  jefe : JStr := .undefined
  dotted? : Option (List Str) := none
  org_unit : JStr := .undefined
  org : JStr := .undefined
  primary? : Option Bool := none
deriving DecidableEq

/-- The output of `JobSchema` (defaults applied, transform run; the alias
keys `title`/`jefe` are retained by the object spread). -/
structure Job where
  role : JStr
  title : JStr
  fte : ℚ
  manager : JStr
  jefe : JStr
  dotted : List Str
  org_unit : JStr
  org : JStr
  primary : Bool
deriving DecidableEq

/-- Validation issues raised by `JobSchema` on our typed inputs: the
`z.number().min(0).max(1)` range checks on `fte`. -/
inductive JobIssue where
  | fteTooSmall
  | fteTooBig
deriving DecidableEq

/-- The `fte` range issues of one raw job (`min(0)` fails below 0,
`max(1)` fails above 1; an absent value takes the default and passes). -/
def jobIssues (r : RawJob) : List JobIssue :=
  match r.fte? with
  | none => []
  | some q => (if q < 0 then [JobIssue.fteTooSmall] else []) ++
      (if 1 < q then [JobIssue.fteTooBig] else [])

/-- Defaults plus the `JobSchema` transform
(`role: job.role || job.title`, `manager: job.manager || job.jefe`). -/
def jobValue (r : RawJob) : Job :=
  { role := jsOrS r.role r.title
    title := r.title
    fte := r.fte?.getD 1
    manager := jsOrS r.manager r.jefe
    jefe := r.jefe
    dotted := r.dotted?.getD []
    org_unit := r.org_unit
    org := r.org
    primary := r.primary?.getD false }

/-- Embedding of `JobSchema.safeParse` on a well-typed raw job. -/
def jobSafeParse (r : RawJob) : Except (List JobIssue) Job :=
  if jobIssues r = [] then .ok (jobValue r) else .error (jobIssues r)

/-- Raw input to `PersonSchema.safeParse` (well-typed at each declared
key). -/
structure RawPerson where
  uid : JStr := .undefined
  id : JStr := .undefined
  name : JStr := .undefined
  nombre : JStr := .undefined
  displayName : JStr := .undefined
  surname : JStr := .undefined
  apellido : JStr := .undefined
  sn : JStr := .undefined
  lastName : JStr := .undefined
  title : JStr := .undefined
  puesto : JStr := .undefined
  role : JStr := .undefined
  email : JEmail := .undefined
  correo : JEmail := .undefined
  mail : JStr := .undefined
  org : JStr := .undefined
  organization : JStr := .undefined
  company : JStr := .undefined
  org_unit : JStr := .undefined
  department : JStr := .undefined
  ou : JStr := .undefined
  manager : JNStr := .undefined
  jefe : JNStr := .undefined
  joshi : JNStr := .undefined
  boss : JNStr := .undefined
  phone : JPhones := .undefined
  tel : JPhones := .undefined
  address : Option Address := none
  adr : Option Address := none
  jobs : Option (List RawJob) := none
  i18n : Option I18n := none
deriving DecidableEq

/-- The output of `PersonSchema` (the transform's object spread keeps every
input key and overwrites the canonical ones; `joshi` models the Japanese
alias key). -/
structure Person where
  uid : JStr := .undefined
  id : JStr := .undefined
  name : JStr := .undefined
  nombre : JStr := .undefined
  displayName : JStr := .undefined
  surname : JStr := .undefined
  apellido : JStr := .undefined
  sn : JStr := .undefined
  lastName : JStr := .undefined
  title : JStr := .undefined
  puesto : JStr := .undefined
  role : JStr := .undefined
  email : JEmail := .undefined
  correo : JEmail := .undefined
  mail : JStr := .undefined
  org : JStr := .undefined
  organization : JStr := .undefined
  company : JStr := .undefined
  org_unit : JStr := .undefined
  department : JStr := .undefined
  ou : JStr := .undefined
  manager : JNStr := .undefined
  jefe : JNStr := .undefined
  joshi : JNStr := .undefined
  boss : JNStr := .undefined
  phone : JPhones := .undefined
  tel : JPhones := .undefined
  address : Option Address := none
  adr : Option Address := none
  jobs : Option (List Job) := none
  i18n : Option I18n := none
deriving DecidableEq

/-- Validation issues raised by `PersonSchema` on our typed inputs: the
required `uid : z.string()` key, and the nested job `fte` range checks
(tagged with the job's position). -/
inductive PIssue where
  | missingUid
  | jobFteTooSmall (i : Nat)
  | jobFteTooBig (i : Nat)
deriving DecidableEq

def tagJobIssue (i : Nat) : JobIssue → PIssue
  | .fteTooSmall => .jobFteTooSmall i
  | .fteTooBig => .jobFteTooBig i

/-- All issues of a raw person, accumulated in declaration order. -/
def personIssues (raw : RawPerson) : List PIssue :=
  (if raw.uid = JStr.undefined then [PIssue.missingUid] else []) ++
  ((raw.jobs.getD []).enum.flatMap (fun ij => (jobIssues ij.2).map (tagJobIssue ij.1)))

/-- The `PersonSchema` transform (src/unnamed/part_000 lines 339-352):
object spread plus the `||` fallback chains onto the canonical fields. -/
def personValue (raw : RawPerson) : Person :=
  { uid := jsOrS raw.uid raw.id
    id := raw.id
    name := jsOrS raw.name (jsOrS raw.nombre raw.displayName)
    nombre := raw.nombre
    displayName := raw.displayName
    surname := jsOrS raw.surname (jsOrS raw.apellido (jsOrS raw.sn raw.lastName))
    apellido := raw.apellido
    sn := raw.sn
    lastName := raw.lastName
    title := jsOrS raw.title (jsOrS raw.puesto raw.role)
    puesto := raw.puesto
    role := raw.role
    email := jsOrE raw.email (jsOrE raw.correo raw.mail.toE)
    correo := raw.correo
    mail := raw.mail
    org := jsOrS raw.org (jsOrS raw.organization raw.company)
    organization := raw.organization
    company := raw.company
    org_unit := jsOrS raw.org_unit (jsOrS raw.department raw.ou)
    department := raw.department
    ou := raw.ou
    manager := jsOrN raw.manager (jsOrN raw.jefe (jsOrN raw.joshi raw.boss))
    jefe := raw.jefe
    joshi := raw.joshi
    boss := raw.boss
    phone := jsOrP raw.phone raw.tel
    tel := raw.tel
    address := jsOrA raw.address raw.adr
    adr := raw.adr
    jobs := raw.jobs.map (List.map jobValue)
    i18n := raw.i18n }

/-- Embedding of `PersonSchema.safeParse` on a well-typed raw person. -/
def personSafeParse (raw : RawPerson) : Except (List PIssue) Person :=
  if personIssues raw = [] then .ok (personValue raw) else .error (personIssues raw)

/-- The root `YCard` document: `{ people: Person[] }`. -/
structure YCard where
  people : List Person
deriving DecidableEq

/-! ## The converters (src/unnamed/part_003) -/

/-- The `x || ''` coercion used for name/address components. -/
def JStr.orEmpty : JStr → Str
  | .undefined => []
  | .val s => s

/-- Present string or `undefined` (the `x || undefined` coercion). -/
def strOrUndefined (s : Str) : JStr := if s.isEmpty then .undefined else .val s

/-- The list form of `Array.isArray(person.email) ? person.email : [person.email]`. -/
def emailCandidates : JEmail → List Str
  | .undefined => []
  | .one s => [s]
  | .many l => l

/-- The phone list carried by a truthy `person.phone`. -/
def phonesOf : JPhones → List PhoneVal
  | .undefined => []
  | .val l => l

/-- One `card.tel` entry from one phone
(a bare string gets type `work`, an object keeps its own type). -/
def phoneToTel : PhoneVal → EmailEntry
  | .bare s => { value := s, type? := some (("work").data) }
  | .typed ty num => { value := num, type? := some ty }

/-- Embedding of `yCardPersonToVCard` from src/unnamed/part_003 lines 11-92. -/
def yCardPersonToVCard (p : Person) (orgName : JStr) : VCard :=
  let orgv : JStr := jsOrS orgName p.org
  { version := some (("4.0").data)
    uid := match p.uid with | .undefined => none | .val s => some s
    fn :=
      if p.name.truthy ∧ p.surname.truthy then
        some (p.name.orEmpty ++ [' '] ++ p.surname.orEmpty)
      else if p.name.truthy then some p.name.orEmpty
      else if p.surname.truthy then some p.surname.orEmpty
      else none
    n :=
      if p.surname.truthy ∨ p.name.truthy then
        some [p.surname.orEmpty, p.name.orEmpty, [], [], []]
      else none
    title := if p.title.truthy then some p.title.orEmpty else none
    org :=
      if orgv.truthy then
        some (orgv.orEmpty :: (if p.org_unit.truthy then [p.org_unit.orEmpty] else []))
      else none
    email :=
      if p.email.truthy then
        some ((emailCandidates p.email).enum.map
          (fun ie => { value := ie.2
                       type? := if ie.1 = 0 then some (("work").data) else none }))
      else none
    tel :=
      if p.phone.truthy then some ((phonesOf p.phone).map phoneToTel)
      else none
    adr :=
      match p.address with
      | some a =>
        some [⟨[[], [], a.street.getD [], a.city.getD [], a.state.getD [],
                a.postal_code.getD [], a.country.getD []], some (("work").data)⟩]
      | none => none }

/-- Embedding of `org.people.find(p => p.org)?.org`: the document-wide organization
name used for every card. -/
def docOrgName (people : List Person) : JStr :=
  match people.find? (fun p => p.org.truthy) with
  | some p => p.org
  | none => .undefined

/-- The person produced for one multi-hat job: the spread copy with
title/org/org_unit/manager overridden from the job. -/
def jobPerson (p : Person) (j : Job) : Person :=
  { p with
    title := jsOrS j.role j.title
    org := jsOrS j.org p.org
    org_unit := jsOrS j.org_unit p.org_unit
    manager := jsOrN j.manager.toN p.manager }

/-- Append the synthetic `-job-N` uid suffix (only when the card's uid is
truthy). -/
def addJobSuffix (c : VCard) (i : Nat) : VCard :=
  match c.uid with
  | some u => if !u.isEmpty then
      { c with uid := some (u ++ ("-job-").data ++ (Nat.repr i).data) } else c
  | none => c

/-- The cards contributed by one person inside `yCardToVCard`: the primary
card, then one card per job except that job 0 is skipped when the person
has no top-level title. -/
def expandOne (orgName : JStr) (p : Person) : List VCard :=
  yCardPersonToVCard p orgName ::
  (match p.jobs with
   | none => []
   | some jobs =>
     jobs.enum.filterMap (fun ij =>
       if ij.1 = 0 ∧ ¬ p.title.truthy = true then none
       else some (addJobSuffix (yCardPersonToVCard (jobPerson p ij.2) orgName) ij.1)))

/-- Embedding of `yCardToVCard` from src/unnamed/part_003 lines 99-133. -/
def yCardToVCard (org : YCard) : List VCard :=
  (org.people.map (expandOne (docOrgName org.people))).flatten

/-- The ambient values read by `vCardToYCardPerson` when it fabricates a
uid: `Date.now()` and `Math.random().toString(36).substr(2, 9)`. -/
structure Ambient where
  now : Nat := 0
  rand : Str := []
deriving DecidableEq

/-- The fabricated fallback uid `vcard-${Date.now()}-${random}`. -/
def genFallbackUid (a : Ambient) : Str :=
  ("vcard-").data ++ (Nat.repr a.now).data ++ ['-'] ++ a.rand

/-- The `x || undefined` coercion on optional-string assignments. -/
def optOfStr (s : Str) : Option Str := if s.isEmpty then none else some s

/-- The `card.fn` fallback branch of the name parsing: trim, split on
spaces; two or more parts give given/family names, otherwise the whole
(untrimmed) `fn` becomes the name.  Result is `(surname, name)`. -/
def fnNameSplit (fn : Option Str) : JStr × JStr :=
  match fn with
  | some f =>
    if !f.isEmpty then
      let parts := splitOnChar ' ' (trimWS f)
      if 2 ≤ parts.length then
        (.val (joinSep [' '] (parts.drop 1)), .val (parts.headD []))
      else (.undefined, .val f)
    else (.undefined, .undefined)
  | none => (.undefined, .undefined)

/-- Embedding of `vCardToYCardPerson` from src/unnamed/part_003 lines 141-206, with the
ambient clock/RNG reads passed explicitly. -/
def vCardToYCardPerson (amb : Ambient) (card : VCard) : Person :=
  let ns : JStr × JStr :=
    match card.n with
    | some comps =>
      if 2 ≤ comps.length then
        (strOrUndefined (comps.headD []), strOrUndefined ((comps.drop 1).headD []))
      else fnNameSplit card.fn
    | none => fnNameSplit card.fn
  { uid :=
      match card.uid with
      | some u => if !u.isEmpty then .val u else .val (genFallbackUid amb)
      | none => .val (genFallbackUid amb)
    surname := ns.1
    name := ns.2
    title :=
      match card.title with
      | some t => if !t.isEmpty then .val t else .undefined
      | none => .undefined
    org :=
      match card.org with
      | some o => if !o.isEmpty then .val (o.headD []) else .undefined
      | none => .undefined
    org_unit :=
      match card.org with
      | some o => if 1 < o.length then .val ((o.drop 1).headD []) else .undefined
      | none => .undefined
    email :=
      match card.email with
      | some es =>
        if es.isEmpty then .undefined
        else if es.length = 1 then .one ((es.headD ⟨[], none⟩).value)
        else .many (es.map (fun e => e.value))
      | none => .undefined
    phone :=
      match card.tel with
      | some ts =>
        if ts.isEmpty then .undefined
        else .val (ts.map (fun t =>
          PhoneVal.typed (match t.type? with
            | some ty => if !ty.isEmpty then ty else ("work").data
            | none => ("work").data) t.value))
      | none => .undefined
    address :=
      match card.adr with
      | some as =>
        match as.headD ⟨[], none⟩ with
        | ⟨v, _⟩ =>
          if as.isEmpty then none
          else if 7 ≤ v.length then
            some { street := optOfStr ((v.drop 2).headD [])
                   city := optOfStr ((v.drop 3).headD [])
                   state := optOfStr ((v.drop 4).headD [])
                   postal_code := optOfStr ((v.drop 5).headD [])
                   country := optOfStr ((v.drop 6).headD []) }
          else none
      | none => none }

/-- Embedding of `vCardToYCard` from src/unnamed/part_003 lines 213-219: one person per
card, in order; each invocation of `vCardToYCardPerson` reads its own fresh
ambient values. -/
def vCardToYCard (ambs : Nat → Ambient) (cards : List VCard) : YCard :=
  ⟨cards.enum.map (fun ic => vCardToYCardPerson (ambs ic.1) ic.2)⟩


/-! ## Spec-side definitions used to state the claims -/

/-- The value carried by a `string | undefined` field. -/
def JStr.toOpt : JStr → Option Str
  | .undefined => none
  | .val s => some s

/-- Spec side: the value of the first *truthy* entry of a priority chain. -/
def firstTruthyS : List JStr → Option Str
  | [] => none
  | a :: t => if a.truthy then a.toOpt else firstTruthyS t

/-- Claim side: the value of the first entry that is merely present
(non-null, non-undefined) in a priority chain. -/
def firstPresentS : List JStr → Option Str
  | [] => none
  | a :: t =>
    match a with
    | .val s => some s
    | .undefined => firstPresentS t

/-- First truthy entry of a nullable-string chain. -/
def firstTruthyN : List JNStr → Option Str
  | [] => none
  | a :: t =>
    if a.truthy then (match a with | .val s => some s | _ => none)
    else firstTruthyN t

/-- First non-null, non-undefined entry of a nullable-string chain. -/
def firstPresentN : List JNStr → Option Str
  | [] => none
  | a :: t =>
    match a with
    | .val s => some s
    | _ => firstPresentN t

/-- First truthy entry of an email-union chain. -/
def firstTruthyE : List JEmail → Option JEmail
  | [] => none
  | a :: t => if a.truthy then some a else firstTruthyE t

/-- First truthy entry of a phone-array chain. -/
def firstTruthyP : List JPhones → Option (List PhoneVal)
  | [] => none
  | a :: t =>
    if a.truthy then (match a with | .val l => some l | _ => none)
    else firstTruthyP t

/-- First present entry of an address chain. -/
def firstSomeA : List (Option Address) → Option Address
  | [] => none
  | a :: t => if a.isSome then a else firstSomeA t

def nameChain (r : RawPerson) : List JStr := [r.name, r.nombre, r.displayName]
def surnameChain (r : RawPerson) : List JStr := [r.surname, r.apellido, r.sn, r.lastName]
def titleChain (r : RawPerson) : List JStr := [r.title, r.puesto, r.role]
def emailChain (r : RawPerson) : List JEmail := [r.email, r.correo, r.mail.toE]
def orgChain (r : RawPerson) : List JStr := [r.org, r.organization, r.company]
def orgUnitChain (r : RawPerson) : List JStr := [r.org_unit, r.department, r.ou]
def managerChain (r : RawPerson) : List JNStr := [r.manager, r.jefe, r.joshi, r.boss]
def phoneChain (r : RawPerson) : List JPhones := [r.phone, r.tel]
def addressChain (r : RawPerson) : List (Option Address) := [r.address, r.adr]

/-! ## Well-formedness class for the amended wire round-trip claim -/

/-- The last character of `s` (if any) is not whitespace, so the
per-line `trim` of the parser cannot eat into it. -/
def noTrailWSb (s : Str) : Bool := !isWS (s.reverse.headD ':')

/-- A raw (unescaped, nonempty) scalar value such as `UID`. -/
def wfUidB (u : Str) : Bool := !u.isEmpty && !u.contains '\n' && noTrailWSb u

/-- An escaped scalar value (`FN`, `TITLE`, `NOTE`): nonempty,
backslash-free (the codec's sequential escaping is not injective on
backslashes), and with no trailing whitespace once escaped. -/
def wfEscB (s : Str) : Bool :=
  !s.isEmpty && !s.contains '\\' && noTrailWSb (escapeVCardValue s)

/-- A structured component (`N`/`ORG`/`ADR`): backslash-free and
semicolon-free (the parser splits the raw value on `;` before
unescaping), with no trailing whitespace once escaped. -/
def wfCompB (s : Str) : Bool :=
  !s.contains '\\' && !s.contains ';' && noTrailWSb (escapeVCardValue s)

/-- A raw multi-occurrence value (`EMAIL`/`TEL` value, `URL`). -/
def wfRawValB (v : Str) : Bool := !v.contains '\n' && noTrailWSb v

/-- A `TYPE` parameter: absent, or nonempty and free of the structural
characters of the parameter segment. -/
def wfTypeB : Option Str → Bool
  | none => true
  | some t => !t.isEmpty && !t.contains ':' && !t.contains ';' && !t.contains '\n'

/-- A category: comma-free, newline-free and already trimmed (the parser
re-trims each comma-separated piece). -/
def wfCatB (s : Str) : Bool :=
  !s.contains ',' && !s.contains '\n' && (trimWS s == s) && noTrailWSb s

def wfEntryB (e : EmailEntry) : Bool := wfRawValB e.value && wfTypeB e.type?

def wfAdrB (a : AdrEntry) : Bool :=
  !a.value.isEmpty && a.value.all wfCompB && wfTypeB a.type?

/-- Lift a value predicate to an optional (absent) field. -/
def wfOpt {α : Type} (f : α → Bool) : Option α → Bool
  | none => true
  | some x => f x

/-- Lift a value predicate to an optional nonempty-list field (the
serializer drops empty arrays, so `some []` cannot round-trip). -/
def wfOptList {α : Type} (f : α → Bool) : Option (List α) → Bool
  | none => true
  | some l => !l.isEmpty && l.all f

/-- The card has a key besides `version`, so the parser's
`Object.keys(currentCard).length > 1` push condition holds. -/
def hasExtraKeyB (c : VCard) : Bool :=
  c.uid.isSome || c.fn.isSome || c.n.isSome || c.title.isSome || c.org.isSome ||
  c.email.isSome || c.tel.isSome || c.adr.isSome || c.url.isSome ||
  c.note.isSome || c.categories.isSome

/-- The well-formed class of wire records on which the serialize/parse
round trip is exact. -/
def wfVCard (c : VCard) : Bool :=
  (c.version == some (("4.0").data)) &&
  wfOpt wfUidB c.uid &&
  wfOpt wfEscB c.fn &&
  wfOptList wfCompB c.n &&
  wfOpt wfEscB c.title &&
  wfOptList wfCompB c.org &&
  wfOptList wfEntryB c.email &&
  wfOptList wfEntryB c.tel &&
  wfOptList wfAdrB c.adr &&
  wfOptList wfRawValB c.url &&
  wfOpt wfEscB c.note &&
  wfOptList wfCatB c.categories &&
  hasExtraKeyB c

/-! ## Proof-support definitions for the round-trip development -/

/-- One step of the in-record parse loop on a content line. -/
def applyLine (cur : VCard) (l : Str) : VCard :=
  match parseVCardProperty l with
  | some p => addPropertyToCard cur p
  | none => cur

/-- Fold the in-record parse steps over a list of content lines. -/
def procLines (cur : VCard) (ls : List Str) : VCard := ls.foldl applyLine cur

/-- A content line: not a record delimiter, nonempty, not a comment. -/
def goodLine (l : Str) : Prop :=
  l ≠ ("BEGIN:VCARD").data ∧ l ≠ ("END:VCARD").data ∧ l ≠ [] ∧
  l.headD ' ' ≠ '#'

/-- A line that survives the newline split and per-line trim intact. -/
def lineOK (l : Str) : Prop :=
  '\n' ∉ l ∧ isWS (l.headD ':') = false ∧ noTrailWSb l = true

/-- Per-character encoding of `escapeVCardValue` on backslash-free input. -/
def eChar (a : Char) : Str :=
  if a = ',' then ['\\', ','] else if a = ';' then ['\\', ';']
  else if a = '\n' then ['\\', 'n'] else [a]

/-- Encoding `eChar` after the `\n`-unescape pass has run. -/
def e1Char (a : Char) : Str :=
  if a = ',' then ['\\', ','] else if a = ';' then ['\\', ';'] else [a]

/-- Encoding `e1Char` after the `\;`-unescape pass has run. -/
def e2Char (a : Char) : Str :=
  if a = ',' then ['\\', ','] else [a]


/-- A well-formed record exercising escaping (comma and newline in the
note) for the round-trip witness. -/
def wfWitnessCard : VCard :=
  { version := some (("4.0").data), uid := some (("john").data),
    fn := some (("John Doe").data),
    n := some [("Doe").data, ("John").data, [], [], []],
    email := some [{ value := ("j@e").data, type? := some (("work").data) }],
    note := some (("a,b\nc").data) }

/-- A simple well-formed record following a malformed one. -/
def c8Card : VCard :=
  { version := some (("4.0").data), uid := some (("b").data),
    fn := some (("Bob").data) }


/-! ## Concrete inputs used by witnesses and counterexamples -/

/-- A default job value (all schema defaults). -/
def defJob : Job :=
  { role := .undefined, title := .undefined, fte := 1, manager := .undefined, jefe := .undefined,
    dotted := [], org_unit := .undefined, org := .undefined, primary := false }

/-- Jordan with a top-level title and two jobs. -/
def jordanTitled : Person :=
  { uid := .val (("jordan").data), title := .val (("CEO").data),
    jobs := some [defJob, defJob] }

/-- Jordan without a top-level title, with two jobs. -/
def jordanUntitled : Person :=
  { uid := .val (("jordan").data), jobs := some [defJob, defJob] }

/-- Raw person carrying both the canonical `name` and the `nombre` alias. -/
def rawJohn : RawPerson :=
  { uid := .val (("u").data), name := .val (("John").data),
    nombre := .val (("Juan").data) }

/-- Raw person whose canonical `name` is present but empty. -/
def rawEmptyName : RawPerson :=
  { uid := .val (("u").data), name := .val [], nombre := .val (("Juan").data) }

/-- Raw person with only the `id` alias and no `uid` key. -/
def rawOnlyId : RawPerson := { id := .val (("x").data) }

/-- Raw job with `fte = 0.8`. -/
def rawJob08 : RawJob := { fte? := some (4/5) }

/-- Raw job with `fte = 1.5`. -/
def rawJob15 : RawJob := { fte? := some (3/2) }

/-- A wire record with no uid at all. -/
def noUidCard : VCard := { version := some (("4.0").data), fn := some (("Bob").data) }

/-- Person A with its own org. -/
def personAcme : Person := { uid := .val (("a").data), org := .val (("Acme").data) }

/-- Person B with a different org of its own. -/
def personBeta : Person := { uid := .val (("b").data), org := .val (("Beta").data) }

/-- A card with two email entries (types present, to be dropped). -/
def twoMailCard : VCard :=
  { version := some (("4.0").data), uid := some (("m").data),
    email := some [{ value := ("x@e").data, type? := some (("work").data) },
                   { value := ("y@e").data, type? := some (("home").data) }] }

/-- The primary wire record emitted for one person of a document. -/
def primaryCardOf (doc : YCard) (p : Person) : VCard :=
  yCardPersonToVCard p (docOrgName doc.people)

/-! ## Helper lemmas -/

theorem personSafeParse_ok {raw : RawPerson} {p : Person}
    (h : personSafeParse raw = .ok p) : p = personValue raw := by
  unfold personSafeParse at h
  split at h
  · exact (Except.ok.inj h).symm
  · exact absurd h (by simp)

theorem vCardToYCardPerson_jobs (amb : Ambient) (c : VCard) :
    (vCardToYCardPerson amb c).jobs = none := rfl

theorem vCardToYCardPerson_email (amb : Ambient) (c : VCard) :
    (vCardToYCardPerson amb c).email =
      (match c.email with
       | some es =>
         if es.isEmpty then .undefined
         else if es.length = 1 then .one ((es.headD ⟨[], none⟩).value)
         else .many (es.map (fun e => e.value))
       | none => .undefined) := rfl

theorem yCardPersonToVCard_uid (p : Person) (o : JStr) :
    (yCardPersonToVCard p o).uid =
      (match p.uid with | .undefined => none | .val s => some s) := rfl

theorem jobPerson_uid (p : Person) (j : Job) : (jobPerson p j).uid = p.uid := rfl

/-! ## C7: contraction is one person per record, never populating jobs -/

/-- C7: for every list of WireRecords, contraction produces exactly one
Person per record, in order, and no produced Person has a populated `jobs`
array (no merging of `-job-N` records ever occurs). -/
theorem contraction_one_to_one (ambs : Nat → Ambient) (cards : List VCard) :
    (vCardToYCard ambs cards).people.length = cards.length ∧
    (∀ i : Nat, (vCardToYCard ambs cards).people[i]? =
      (cards[i]?).map (fun c => vCardToYCardPerson (ambs i) c)) ∧
    ∀ p ∈ (vCardToYCard ambs cards).people, p.jobs = none := by
  refine ⟨?_, ?_, ?_⟩
  · simp [vCardToYCard]
  · intro i
    simp only [vCardToYCard, List.getElem?_map, List.getElem?_enum]
    cases cards[i]? <;> rfl
  · intro p hp
    simp only [vCardToYCard, List.mem_map] at hp
    obtain ⟨ic, _, rfl⟩ := hp
    exact vCardToYCardPerson_jobs _ _

/-- C7 witness at a concrete input. -/
theorem contraction_one_to_one_witness :
    (vCardToYCard (fun _ => {}) [noUidCard]).people.length = 1 ∧
    ((vCardToYCard (fun _ => {}) [noUidCard]).people.headD {}).jobs = none := by
  refine ⟨(contraction_one_to_one (fun _ => {}) [noUidCard]).1, ?_⟩
  exact (contraction_one_to_one (fun _ => {}) [noUidCard]).2.2 _ (by decide)

/-! ## C4: multi-hat expansion counts and synthetic uids -/

/-- C4: a Person with uid `jordan`, a top-level title and two jobs expands
to three records with uids `jordan`, `jordan-job-0`, `jordan-job-1`; a
Person with no top-level title and two jobs expands to two records, job 0
being skipped and job 1 getting the `-job-1` suffix. -/
theorem multihat_expansion_counts :
    (∀ (j0 j1 : Job) (p : Person), p.uid = .val (("jordan").data) →
      p.title.truthy = true → p.jobs = some [j0, j1] →
      (yCardToVCard ⟨[p]⟩).map (fun c => c.uid) =
        [some (("jordan").data), some (("jordan-job-0").data),
         some (("jordan-job-1").data)]) ∧
    (∀ (u : Str) (j0 j1 : Job) (p : Person), p.uid = .val u → u ≠ [] →
      p.title.truthy = false → p.jobs = some [j0, j1] →
      (yCardToVCard ⟨[p]⟩).map (fun c => c.uid) =
        [some u, some (u ++ ("-job-1").data)]) := by
  constructor
  · intro j0 j1 p huid htitle hjobs
    simp [yCardToVCard, expandOne, hjobs, htitle, List.enum, List.enumFrom,
      addJobSuffix, yCardPersonToVCard_uid, jobPerson_uid, huid]
    decide
  · intro u j0 j1 p huid hu htitle hjobs
    simp [yCardToVCard, expandOne, hjobs, htitle, List.enum, List.enumFrom,
      addJobSuffix, yCardPersonToVCard_uid, jobPerson_uid, huid, hu,
      List.append_assoc]
    decide

/-- C4 witness at the concrete Jordan persons. -/
theorem multihat_expansion_counts_witness :
    (yCardToVCard ⟨[jordanTitled]⟩).map (fun c => c.uid) =
      [some (("jordan").data), some (("jordan-job-0").data),
       some (("jordan-job-1").data)] ∧
    (yCardToVCard ⟨[jordanUntitled]⟩).map (fun c => c.uid) =
      [some (("jordan").data), some (("jordan-job-1").data)] :=
  ⟨multihat_expansion_counts.1 defJob defJob jordanTitled rfl (by decide) rfl,
   multihat_expansion_counts.2 (("jordan").data) defJob defJob jordanUntitled rfl
     (by decide) (by decide) rfl⟩

/-! ## C10: contraction collapses the email sequence by shape -/

/-- C10: contracting a record with exactly one EMAIL entry yields a bare
string email; with two or more entries, an array of their values in file
order; TYPE parameters are dropped in both cases. -/
theorem contraction_email_collapse (amb : Ambient) (c : VCard) :
    (∀ e : EmailEntry, c.email = some [e] →
      (vCardToYCardPerson amb c).email = JEmail.one e.value) ∧
    (∀ es : List EmailEntry, c.email = some es → 2 ≤ es.length →
      (vCardToYCardPerson amb c).email = JEmail.many (es.map (fun e => e.value))) := by
  constructor
  · intro e he
    rw [vCardToYCardPerson_email, he]
    simp
  · intro es he hlen
    rw [vCardToYCardPerson_email, he]
    have h1 : ¬ es.isEmpty = true := by
      cases es with
      | nil => simp at hlen
      | cons a t => simp
    have h2 : ¬ es.length = 1 := by omega
    simp [h1, h2]

/-- C10 witness at a concrete two-email record (with TYPE parameters that
are dropped). -/
theorem contraction_email_collapse_witness :
    (vCardToYCardPerson {} twoMailCard).email =
      JEmail.many [("x@e").data, ("y@e").data] :=
  (contraction_email_collapse {} twoMailCard).2 _ rfl (by decide)

/-! ## C9: fte range enforcement in JobSchema -/

/-- C9: `JobSchema` accepts any `fte` in `[0,1]` (keeping the value),
defaults `fte` to 1 when absent, and rejects any `fte` outside `[0,1]`
with a nonempty out-of-range issue list. -/
theorem fte_range_check (r : RawJob) :
    (∀ q : ℚ, r.fte? = some q → 0 ≤ q → q ≤ 1 →
      jobSafeParse r = .ok (jobValue r) ∧ (jobValue r).fte = q) ∧
    (r.fte? = none → jobSafeParse r = .ok (jobValue r) ∧ (jobValue r).fte = 1) ∧
    (∀ q : ℚ, r.fte? = some q → q < 0 ∨ 1 < q →
      jobSafeParse r = .error (jobIssues r) ∧ jobIssues r ≠ []) := by
  refine ⟨?_, ?_, ?_⟩
  · intro q hq h0 h1
    have hiss : jobIssues r = [] := by
      simp [jobIssues, hq, not_lt.mpr h0, not_lt.mpr h1]
    exact ⟨by simp [jobSafeParse, hiss], by simp [jobValue, hq]⟩
  · intro hq
    have hiss : jobIssues r = [] := by simp [jobIssues, hq]
    exact ⟨by simp [jobSafeParse, hiss], by simp [jobValue, hq]⟩
  · intro q hq hout
    have hiss : jobIssues r ≠ [] := by
      rcases hout with h | h
      · simp [jobIssues, hq, h]
      · simp [jobIssues, hq, h]
    exact ⟨by simp [jobSafeParse, hiss], hiss⟩

/-- C9 witness: `fte=0.8` is accepted with value 0.8, `fte=1.5` is
rejected with a nonempty issue list. -/
theorem fte_range_check_witness :
    (jobSafeParse rawJob08 = .ok (jobValue rawJob08) ∧
      (jobValue rawJob08).fte = 4/5) ∧
    (jobSafeParse rawJob15 = .error (jobIssues rawJob15) ∧ jobIssues rawJob15 ≠ []) :=
  ⟨(fte_range_check rawJob08).1 (4/5) rfl (by norm_num) (by norm_num),
   (fte_range_check rawJob15).2.2 (3/2) rfl (Or.inr (by norm_num))⟩

/-! ## C5: determinism of contraction -/

theorem vCardToYCardPerson_amb_irrel (a a' : Ambient) (c : VCard)
    (h : strTruthy c.uid = true) :
    vCardToYCardPerson a c = vCardToYCardPerson a' c := by
  cases hc : c.uid with
  | none => rw [hc] at h; simp [strTruthy] at h
  | some u =>
    rw [hc] at h
    have h2 : (!u.isEmpty) = true := h
    simp [vCardToYCardPerson, hc, h2]

theorem enumFrom_map_amb_irrel (f g : Nat → Ambient) (cards : List VCard)
    (h : ∀ c ∈ cards, strTruthy c.uid = true) : ∀ n : Nat,
    (List.enumFrom n cards).map (fun ic => vCardToYCardPerson (f ic.1) ic.2) =
    (List.enumFrom n cards).map (fun ic => vCardToYCardPerson (g ic.1) ic.2) := by
  induction cards with
  | nil => intro n; rfl
  | cons c t ih =>
    intro n
    simp only [List.enumFrom, List.map_cons]
    refine congrArg₂ _ ?_ ?_
    · exact vCardToYCardPerson_amb_irrel _ _ c (h c (by simp))
    · exact ih (fun x hx => h x (by simp [hx])) (n + 1)

/-- C5 (amended): contraction is a deterministic function of the record
list whenever every record carries a truthy uid; the ambient clock/RNG
values read by `vCardToYCardPerson` are then irrelevant.  (The other core
functions are pure by construction; only the uid fallback reads ambient
state.) -/
theorem contraction_deterministic (ambs ambs' : Nat → Ambient)
    (cards : List VCard) (h : ∀ c ∈ cards, strTruthy c.uid = true) :
    vCardToYCard ambs cards = vCardToYCard ambs' cards := by
  simp only [vCardToYCard, YCard.mk.injEq, List.enum]
  exact enumFrom_map_amb_irrel ambs ambs' cards h 0

/-- C5 witness at a concrete record list with uids present. -/
theorem contraction_deterministic_witness :
    vCardToYCard (fun _ => ⟨0, ("r").data⟩) [cexSemiCard] =
    vCardToYCard (fun _ => ⟨1, ("r").data⟩) [cexSemiCard] :=
  contraction_deterministic _ _ _ (by decide)

/-- C5 counterexample: contracting the same uid-less record under two
different ambient clock readings yields different Persons, so contraction
is not a pure function of its input record list. -/
theorem contraction_impure_cex :
    vCardToYCard (fun _ => ⟨0, ("r").data⟩) [noUidCard] ≠
    vCardToYCard (fun _ => ⟨1, ("r").data⟩) [noUidCard] := by decide

/-! ## C6: sources of the primary record's fields -/

theorem yCardPersonToVCard_title (p : Person) (o : JStr) :
    (yCardPersonToVCard p o).title =
      (if p.title.truthy then some p.title.orEmpty else none) := rfl

theorem yCardPersonToVCard_org (p : Person) (o : JStr) :
    (yCardPersonToVCard p o).org =
      (if (jsOrS o p.org).truthy then
        some ((jsOrS o p.org).orEmpty ::
          (if p.org_unit.truthy then [p.org_unit.orEmpty] else []))
       else none) := rfl

/-- C6 (amended): within `yCardToVCard`, each person's primary record is
built with the document-wide org name: its title and org-unit come from
the Person itself, but its org component is the org of the *first* Person
in the document with a truthy org whenever one exists, overriding the
Person's own org; only when no person in the document has a truthy org
does the Person's own (then falsy) org decide, yielding no ORG at all. -/
theorem expansion_primary_fields (doc : YCard) (p : Person) :
    yCardToVCard doc =
      (doc.people.map (fun q => expandOne (docOrgName doc.people) q)).flatten ∧
    (expandOne (docOrgName doc.people) p).head? = some (primaryCardOf doc p) ∧
    (primaryCardOf doc p).title =
      (if p.title.truthy then some p.title.orEmpty else none) ∧
    ((docOrgName doc.people).truthy = true →
      (primaryCardOf doc p).org =
        some ((docOrgName doc.people).orEmpty ::
          (if p.org_unit.truthy then [p.org_unit.orEmpty] else []))) ∧
    (docOrgName doc.people = .undefined →
      (primaryCardOf doc p).org =
        (if p.org.truthy then
          some (p.org.orEmpty ::
            (if p.org_unit.truthy then [p.org_unit.orEmpty] else []))
         else none)) := by
  refine ⟨rfl, rfl, yCardPersonToVCard_title p _, ?_, ?_⟩
  · intro h
    rw [primaryCardOf, yCardPersonToVCard_org]
    simp [jsOrS, h]
  · intro h
    rw [primaryCardOf, yCardPersonToVCard_org, h]
    simp [jsOrS, JStr.truthy]

/-- C6 witness: in a two-person document, person B's primary org is the
document-wide first org. -/
theorem expansion_primary_fields_witness :
    (primaryCardOf ⟨[personAcme, personBeta]⟩ personBeta).org =
      some [("Acme").data] :=
  ((expansion_primary_fields ⟨[personAcme, personBeta]⟩ personBeta).2.2.2.1
    (by decide)).trans (by decide)

/-- C6 counterexample: person B's own org is `Beta`, yet its primary
record's org component is `Acme`, the org of the other person in the
document. -/
theorem expansion_org_override_cex :
    personBeta.org = JStr.val (("Beta").data) ∧
    (yCardToVCard ⟨[personAcme, personBeta]⟩).map (fun c => c.org) =
      [some [("Acme").data], some [("Acme").data]] := by decide

/-! ## C2: alias resolution priority -/

theorem JStr.toOpt_eq {a : JStr} {v : Str} (h : a.toOpt = some v) :
    a = .val v := by
  cases a with
  | undefined => simp [JStr.toOpt] at h
  | val s => simpa [JStr.toOpt] using h

theorem firstTruthyS_head {a : JStr} {t : List JStr} {v : Str}
    (ha : a.truthy = true) (h : firstTruthyS (a :: t) = some v) :
    a = .val v := by
  apply JStr.toOpt_eq
  simpa [firstTruthyS, ha] using h

theorem firstTruthyS_tail {a : JStr} {t : List JStr} {v : Str}
    (ha : ¬ a.truthy = true) (h : firstTruthyS (a :: t) = some v) :
    firstTruthyS t = some v := by
  simpa [firstTruthyS, ha] using h

theorem firstTruthyS2 {a b : JStr} {v : Str}
    (h : firstTruthyS [a, b] = some v) : jsOrS a b = .val v := by
  by_cases ha : a.truthy = true
  · obtain rfl := firstTruthyS_head ha h
    simp [jsOrS, ha]
  · have h2 := firstTruthyS_tail ha h
    by_cases hb : b.truthy = true
    · obtain rfl := firstTruthyS_head hb h2
      simp [jsOrS, ha]
    · simp [firstTruthyS, hb] at h2

theorem firstTruthyS3 {a b c : JStr} {v : Str}
    (h : firstTruthyS [a, b, c] = some v) : jsOrS a (jsOrS b c) = .val v := by
  by_cases ha : a.truthy = true
  · obtain rfl := firstTruthyS_head ha h
    simp [jsOrS, ha]
  · have hbc := firstTruthyS2 (firstTruthyS_tail ha h)
    simp [jsOrS, ha] at hbc ⊢
    exact hbc

theorem firstTruthyS4 {a b c d : JStr} {v : Str}
    (h : firstTruthyS [a, b, c, d] = some v) :
    jsOrS a (jsOrS b (jsOrS c d)) = .val v := by
  by_cases ha : a.truthy = true
  · obtain rfl := firstTruthyS_head ha h
    simp [jsOrS, ha]
  · have hbc := firstTruthyS3 (firstTruthyS_tail ha h)
    simp [jsOrS, ha] at hbc ⊢
    exact hbc

theorem firstTruthyN_head {a : JNStr} {t : List JNStr} {v : Str}
    (ha : a.truthy = true) (h : firstTruthyN (a :: t) = some v) :
    a = .val v := by
  cases a with
  | undefined => simp [JNStr.truthy] at ha
  | jnull => simp [JNStr.truthy] at ha
  | val s => simpa [firstTruthyN, ha] using h

theorem firstTruthyN_tail {a : JNStr} {t : List JNStr} {v : Str}
    (ha : ¬ a.truthy = true) (h : firstTruthyN (a :: t) = some v) :
    firstTruthyN t = some v := by
  simpa [firstTruthyN, ha] using h

theorem firstTruthyN2 {a b : JNStr} {v : Str}
    (h : firstTruthyN [a, b] = some v) : jsOrN a b = .val v := by
  by_cases ha : a.truthy = true
  · obtain rfl := firstTruthyN_head ha h
    simp [jsOrN, ha]
  · have h2 := firstTruthyN_tail ha h
    by_cases hb : b.truthy = true
    · obtain rfl := firstTruthyN_head hb h2
      simp [jsOrN, ha]
    · simp [firstTruthyN, hb] at h2

theorem firstTruthyN3 {a b c : JNStr} {v : Str}
    (h : firstTruthyN [a, b, c] = some v) : jsOrN a (jsOrN b c) = .val v := by
  by_cases ha : a.truthy = true
  · obtain rfl := firstTruthyN_head ha h
    simp [jsOrN, ha]
  · have hbc := firstTruthyN2 (firstTruthyN_tail ha h)
    simp [jsOrN, ha] at hbc ⊢
    exact hbc

theorem firstTruthyN4 {a b c d : JNStr} {v : Str}
    (h : firstTruthyN [a, b, c, d] = some v) :
    jsOrN a (jsOrN b (jsOrN c d)) = .val v := by
  by_cases ha : a.truthy = true
  · obtain rfl := firstTruthyN_head ha h
    simp [jsOrN, ha]
  · have hbc := firstTruthyN3 (firstTruthyN_tail ha h)
    simp [jsOrN, ha] at hbc ⊢
    exact hbc

theorem firstTruthyE_head {a : JEmail} {t : List JEmail} {e : JEmail}
    (ha : a.truthy = true) (h : firstTruthyE (a :: t) = some e) :
    a = e := by
  simpa [firstTruthyE, ha] using h

theorem firstTruthyE_tail {a : JEmail} {t : List JEmail} {e : JEmail}
    (ha : ¬ a.truthy = true) (h : firstTruthyE (a :: t) = some e) :
    firstTruthyE t = some e := by
  simpa [firstTruthyE, ha] using h

theorem firstTruthyE2 {a b : JEmail} {e : JEmail}
    (h : firstTruthyE [a, b] = some e) : jsOrE a b = e := by
  by_cases ha : a.truthy = true
  · obtain rfl := firstTruthyE_head ha h
    simp [jsOrE, ha]
  · have h2 := firstTruthyE_tail ha h
    by_cases hb : b.truthy = true
    · obtain rfl := firstTruthyE_head hb h2
      simp [jsOrE, ha]
    · simp [firstTruthyE, hb] at h2

theorem firstTruthyE3 {a b c : JEmail} {e : JEmail}
    (h : firstTruthyE [a, b, c] = some e) : jsOrE a (jsOrE b c) = e := by
  by_cases ha : a.truthy = true
  · obtain rfl := firstTruthyE_head ha h
    simp [jsOrE, ha]
  · have hbc := firstTruthyE2 (firstTruthyE_tail ha h)
    simp [jsOrE, ha] at hbc ⊢
    exact hbc

theorem firstTruthyP_head {a : JPhones} {t : List JPhones} {l : List PhoneVal}
    (ha : a.truthy = true) (h : firstTruthyP (a :: t) = some l) :
    a = .val l := by
  cases a with
  | undefined => simp [JPhones.truthy] at ha
  | val m => simpa [firstTruthyP, ha] using h

theorem firstTruthyP2 {a b : JPhones} {l : List PhoneVal}
    (h : firstTruthyP [a, b] = some l) : jsOrP a b = .val l := by
  by_cases ha : a.truthy = true
  · obtain rfl := firstTruthyP_head ha h
    simp [jsOrP, ha]
  · have h2 : firstTruthyP [b] = some l := by simpa [firstTruthyP, ha] using h
    by_cases hb : b.truthy = true
    · obtain rfl := firstTruthyP_head hb h2
      simp [jsOrP, ha]
    · simp [firstTruthyP, hb] at h2

theorem firstSomeA2 {a b : Option Address} {x : Address}
    (h : firstSomeA [a, b] = some x) : jsOrA a b = some x := by
  by_cases ha : a.isSome = true
  · simp only [firstSomeA, ha, if_true] at h
    simp [jsOrA, ha, h]
  · have h2 : firstSomeA [b] = some x := by simpa [firstSomeA, ha] using h
    by_cases hb : b.isSome = true
    · simp only [firstSomeA, hb, if_true] at h2
      simp [jsOrA, ha, hb, h2]
    · simp [firstSomeA, hb] at h2

/-- C2 (amended): for every raw person mapping that normalizes
successfully, each canonical field resolves to the value of the first key
in the fixed priority order whose value is *truthy* — non-null,
non-undefined and non-empty (an empty string is skipped, unlike what the
original claim states); all later keys are discarded.  The raw mapping is
a keyed structure, so the result is independent of input key order. -/
theorem alias_priority_truthy (raw : RawPerson) (p : Person)
    (h : personSafeParse raw = .ok p) :
    (∀ v, firstTruthyS (nameChain raw) = some v → p.name = .val v) ∧
    (∀ v, firstTruthyS (surnameChain raw) = some v → p.surname = .val v) ∧
    (∀ v, firstTruthyS (titleChain raw) = some v → p.title = .val v) ∧
    (∀ e, firstTruthyE (emailChain raw) = some e → p.email = e) ∧
    (∀ v, firstTruthyS (orgChain raw) = some v → p.org = .val v) ∧
    (∀ v, firstTruthyS (orgUnitChain raw) = some v → p.org_unit = .val v) ∧
    (∀ v, firstTruthyN (managerChain raw) = some v → p.manager = .val v) ∧
    (∀ l, firstTruthyP (phoneChain raw) = some l → p.phone = .val l) ∧
    (∀ a, firstSomeA (addressChain raw) = some a → p.address = some a) := by
  obtain rfl : p = personValue raw := personSafeParse_ok h
  refine ⟨?_, ?_, ?_, ?_, ?_, ?_, ?_, ?_, ?_⟩
  · intro v hv; exact firstTruthyS3 hv
  · intro v hv; exact firstTruthyS4 hv
  · intro v hv; exact firstTruthyS3 hv
  · intro e he; exact firstTruthyE3 he
  · intro v hv; exact firstTruthyS3 hv
  · intro v hv; exact firstTruthyS3 hv
  · intro v hv; exact firstTruthyN4 hv
  · intro l hl; exact firstTruthyP2 hl
  · intro a ha; exact firstSomeA2 ha

/-- C2 witness: canonical `name="John"` beats alias `nombre="Juan"`. -/
theorem alias_priority_truthy_witness :
    (personValue rawJohn).name = .val (("John").data) :=
  (alias_priority_truthy rawJohn (personValue rawJohn) (by decide)).1
    (("John").data) (by decide)

/-- C2 counterexample: with canonical `name=""` (present, non-null,
non-undefined) and alias `nombre="Juan"`, the claim's rule picks the empty
canonical value, but the code's `||` chain skips it and resolves to
`"Juan"`. -/
theorem alias_priority_cex :
    firstPresentS (nameChain rawEmptyName) = some [] ∧
    (personSafeParse rawEmptyName).map (fun q => q.name) =
      .ok (JStr.val (("Juan").data)) ∧
    JStr.val (("Juan").data) ≠ JStr.val [] := by decide

/-! ## C3: the uid requirement -/

/-- C3 (amended): normalization fails with the missing-required-field
issue exactly when the `uid` key itself is absent — the presence of the
`id` alias does not prevent the failure, because `uid` is a required key
of the schema.  When `uid` is present, a nonempty value is kept and an
empty value falls back to the `id` alias inside the transform. -/
theorem uid_required_key (raw : RawPerson) :
    (raw.uid = .undefined →
      personSafeParse raw = .error (personIssues raw) ∧
      PIssue.missingUid ∈ personIssues raw) ∧
    (∀ s, raw.uid = .val s → PIssue.missingUid ∉ personIssues raw) ∧
    (∀ s p, raw.uid = .val s → s ≠ [] → personSafeParse raw = .ok p →
      p.uid = .val s) ∧
    (∀ p, raw.uid = .val [] → personSafeParse raw = .ok p →
      p.uid = raw.id) := by
  refine ⟨?_, ?_, ?_, ?_⟩
  · intro h
    have hne : personIssues raw ≠ [] := by
      simp [personIssues, h]
    refine ⟨by simp [personSafeParse, hne], ?_⟩
    simp [personIssues, h]
  · intro s hs hmem
    simp only [personIssues, hs, List.mem_append, List.mem_flatMap,
      List.mem_map] at hmem
    rcases hmem with h1 | ⟨ij, hij, issue, hiss, htag⟩
    · simp at h1
    · cases issue <;> simp [tagJobIssue] at htag
  · intro s p hs hne hp
    obtain rfl : p = personValue raw := personSafeParse_ok hp
    have ht : (JStr.val s).truthy = true := by
      simpa [JStr.truthy] using hne
    simp [personValue, jsOrS, hs, ht]
  · intro p hs hp
    obtain rfl : p = personValue raw := personSafeParse_ok hp
    have ht : (JStr.val ([] : Str)).truthy = false := rfl
    simp [personValue, jsOrS, hs, ht]

/-- C3 witness: with the `uid` key absent the parse fails and reports the
missing required field. -/
theorem uid_required_key_witness :
    personSafeParse rawOnlyId = .error (personIssues rawOnlyId) ∧
    PIssue.missingUid ∈ personIssues rawOnlyId :=
  (uid_required_key rawOnlyId).1 rfl

/-- C3 counterexample: a mapping carrying only the `id` alias (one of the
two keys the claim says suffices) still fails to normalize. -/
theorem uid_alias_cex :
    rawOnlyId.id = .val (("x").data) ∧
    personSafeParse rawOnlyId = .error [PIssue.missingUid] := by decide

/-! ## String-level lemmas for the wire round trip -/

theorem dropWS_eq_self {l : Str} (h : isWS (l.headD ':') = false) :
    dropWS l = l := by
  cases l with
  | nil => rfl
  | cons a t => simp only [List.headD_cons] at h; simp [dropWS, h]

theorem dropWS_rev_eq {l : Str} (h : noTrailWSb l = true) :
    dropWS l.reverse = l.reverse := by
  apply dropWS_eq_self
  simpa [noTrailWSb] using h

theorem trimWS_eq_self {l : Str} (h1 : isWS (l.headD ':') = false)
    (h2 : noTrailWSb l = true) : trimWS l = l := by
  unfold trimWS
  rw [dropWS_eq_self h1, dropWS_rev_eq h2, List.reverse_reverse]

theorem trimWS_append_cr {l : Str} (h1 : isWS (l.headD ':') = false)
    (h2 : noTrailWSb l = true) : trimWS (l ++ ['\r']) = l := by
  cases l with
  | nil => rfl
  | cons a t =>
    unfold trimWS
    have hd : dropWS ((a :: t) ++ ['\r']) = (a :: t) ++ ['\r'] := by
      simp only [List.headD_cons] at h1
      simp [dropWS, h1]
    rw [hd, List.reverse_append]
    have : dropWS (['\r'].reverse ++ (a :: t).reverse) =
        dropWS ((a :: t).reverse) := by
      simp [dropWS, isWS]
    rw [this, dropWS_rev_eq h2, List.reverse_reverse]

theorem splitOnChar_ne_nil (c : Char) (s : Str) : splitOnChar c s ≠ [] := by
  cases s with
  | nil => simp [splitOnChar]
  | cons a t =>
    by_cases h : a = c
    · simp [splitOnChar, h]
    · simp only [splitOnChar, h, if_false]
      cases splitOnChar c t <;> simp

theorem splitOnChar_not_mem {c : Char} {s : Str} (h : c ∉ s) :
    splitOnChar c s = [s] := by
  induction s with
  | nil => rfl
  | cons a t ih =>
    have ha : ¬ a = c := fun hac => h (by simp [hac])
    have ht : c ∉ t := fun hct => h (by simp [hct])
    simp [splitOnChar, ha, ih ht]

theorem splitOnChar_append {c : Char} {x y : Str} (h : c ∉ x) :
    splitOnChar c (x ++ c :: y) = x :: splitOnChar c y := by
  induction x with
  | nil => simp [splitOnChar]
  | cons a t ih =>
    have ha : ¬ a = c := fun hac => h (by simp [hac])
    have ht : c ∉ t := fun hct => h (by simp [hct])
    show splitOnChar c (a :: (t ++ c :: y)) = (a :: t) :: splitOnChar c y
    rw [splitOnChar, if_neg ha, ih ht]

theorem splitOnChar_joinSep {c : Char} {ps : List Str}
    (hne : ps ≠ []) (h : ∀ p ∈ ps, c ∉ p) :
    splitOnChar c (joinSep [c] ps) = ps := by
  induction ps with
  | nil => exact absurd rfl hne
  | cons p t ih =>
    cases t with
    | nil => exact splitOnChar_not_mem (h p (by simp))
    | cons q m =>
      have : joinSep [c] (p :: q :: m) = p ++ c :: joinSep [c] (q :: m) := by
        simp [joinSep]
      rw [this, splitOnChar_append (h p (by simp))]
      rw [ih (by simp) (fun r hr => h r (by simp [hr]))]

theorem lines_roundtrip {L : List Str} (hne : L ≠ [])
    (h : ∀ l ∈ L, lineOK l) :
    (splitOnChar '\n' (joinSep ['\r', '\n'] L)).map trimWS = L := by
  induction L with
  | nil => exact absurd rfl hne
  | cons l t ih =>
    obtain ⟨hnl, hhead, htail⟩ := h l (by simp)
    cases t with
    | nil =>
      simp only [joinSep]
      rw [splitOnChar_not_mem hnl, List.map_cons, List.map_nil,
        trimWS_eq_self hhead htail]
    | cons q m =>
      have hj : joinSep ['\r', '\n'] (l :: q :: m) =
          (l ++ ['\r']) ++ '\n' :: joinSep ['\r', '\n'] (q :: m) := by
        simp [joinSep]
      have hncr : '\n' ∉ l ++ ['\r'] := by
        intro hc
        rcases List.mem_append.mp hc with hc | hc
        · exact hnl hc
        · simp at hc
      rw [hj, splitOnChar_append hncr, List.map_cons,
        trimWS_append_cr hhead htail,
        ih (by simp) (fun r hr => h r (by simp [hr]))]

/-! ## Escaping lemmas -/

theorem repl1_append (c : Char) (r : Str) (x y : Str) :
    repl1 c r (x ++ y) = repl1 c r x ++ repl1 c r y := by
  induction x with
  | nil => rfl
  | cons a t ih => simp [repl1, ih]

theorem repl1_not_mem_eq {c : Char} {r : Str} {s : Str} (h : c ∉ s) :
    repl1 c r s = s := by
  induction s with
  | nil => rfl
  | cons a t ih =>
    have ha : ¬ a = c := fun hac => h (by simp [hac])
    have ht : c ∉ t := fun hct => h (by simp [hct])
    simp [repl1, ha, ih ht]

theorem repl1_mem {x c : Char} {r s : Str} (h : x ∈ repl1 c r s) :
    x ∈ s ∨ x ∈ r := by
  induction s with
  | nil => simp [repl1] at h
  | cons a t ih =>
    simp only [repl1, List.mem_append] at h
    rcases h with h | h
    · by_cases ha : a = c
      · simp only [ha, if_true] at h
        exact Or.inr h
      · simp only [ha, if_false, List.mem_singleton] at h
        exact Or.inl (by simp [h])
    · rcases ih h with h | h
      · exact Or.inl (by simp [h])
      · exact Or.inr h

theorem not_mem_repl1_self {c : Char} {r s : Str} (h : c ∉ r) :
    c ∉ repl1 c r s := by
  induction s with
  | nil => simp [repl1]
  | cons a t ih =>
    simp only [repl1, List.mem_append]
    rintro (hm | hm)
    · by_cases ha : a = c
      · rw [ha, if_pos rfl] at hm
        exact h hm
      · simp only [ha, if_false, List.mem_singleton] at hm
        exact ha hm.symm
    · exact ih hm

theorem repl1_singleton (c : Char) (r : Str) (a : Char) :
    repl1 c r [a] = (if a = c then r else [a]) := by
  simp [repl1]

theorem not_mem_escape_nl (s : Str) : '\n' ∉ escapeVCardValue s := by
  unfold escapeVCardValue
  exact not_mem_repl1_self (by decide)

theorem not_mem_escape_semi {s : Str} (h : ';' ∉ s) :
    ';' ∉ escapeVCardValue s := by
  unfold escapeVCardValue
  have h1 : ';' ∉ repl1 '\\' ['\\', '\\'] s := by
    intro hm
    rcases repl1_mem hm with hm | hm
    · exact h hm
    · simp at hm
  have h2 : ';' ∉ repl1 ',' ['\\', ','] (repl1 '\\' ['\\', '\\'] s) := by
    intro hm
    rcases repl1_mem hm with hm | hm
    · exact h1 hm
    · simp at hm
  rw [repl1_not_mem_eq h2]
  intro hm
  rcases repl1_mem hm with hm | hm
  · exact h2 hm
  · simp at hm

theorem escape_eq_flatMap {s : Str} (h : '\\' ∉ s) :
    escapeVCardValue s = s.flatMap eChar := by
  unfold escapeVCardValue
  rw [repl1_not_mem_eq h]
  induction s with
  | nil => rfl
  | cons a t ih =>
    have ht : '\\' ∉ t := fun hct => h (by simp [hct])
    have ha : ¬ a = '\\' := fun hac => h (by simp [hac])
    have step2 : repl1 ',' ['\\', ','] (a :: t) =
        (if a = ',' then ['\\', ','] else [a]) ++ repl1 ',' ['\\', ','] t := by
      simp [repl1]
    rw [step2, repl1_append, repl1_append, List.flatMap_cons, ih ht]
    congr 1
    by_cases h1 : a = ','
    · subst h1; decide
    · by_cases h2 : a = ';'
      · subst h2; decide
      · by_cases h3 : a = '\n'
        · subst h3; decide
        · simp [h1, repl1_singleton, h2, h3, eChar]

theorem repl2_cons_ne {a b : Char} {r : Str} {x : Char} {t : Str}
    (h : x ≠ a) : repl2 a b r (x :: t) = x :: repl2 a b r t := by
  cases t with
  | nil => rfl
  | cons y m => simp [repl2, h]

theorem repl2_not_mem {a b : Char} {r : Str} {s : Str} (h : a ∉ s) :
    repl2 a b r s = s := by
  induction s with
  | nil => rfl
  | cons x t ih =>
    have hx : x ≠ a := fun hxa => h (by simp [hxa])
    have ht : a ∉ t := fun hat => h (by simp [hat])
    rw [repl2_cons_ne hx, ih ht]

theorem p1_flatMap {s : Str} (h : '\\' ∉ s) :
    repl2 '\\' 'n' ['\n'] (s.flatMap eChar) = s.flatMap e1Char := by
  induction s with
  | nil => rfl
  | cons a t ih =>
    have ht : '\\' ∉ t := fun hct => h (by simp [hct])
    have ha : ¬ a = '\\' := fun hac => h (by simp [hac])
    rw [List.flatMap_cons, List.flatMap_cons]
    by_cases h1 : a = ','
    · subst h1
      show repl2 '\\' 'n' ['\n'] ('\\' :: ',' :: t.flatMap eChar) = _
      rw [repl2, if_neg (by decide), repl2_cons_ne (by decide), ih ht]
      rfl
    · by_cases h2 : a = ';'
      · subst h2
        show repl2 '\\' 'n' ['\n'] ('\\' :: ';' :: t.flatMap eChar) = _
        rw [repl2, if_neg (by decide), repl2_cons_ne (by decide), ih ht]
        rfl
      · by_cases h3 : a = '\n'
        · subst h3
          show repl2 '\\' 'n' ['\n'] ('\\' :: 'n' :: t.flatMap eChar) = _
          rw [repl2, if_pos (by decide), ih ht]
          rfl
        · have he : eChar a = [a] := by simp [eChar, h1, h2, h3]
          have he1 : e1Char a = [a] := by simp [e1Char, h1, h2]
          rw [he, he1, List.singleton_append, List.singleton_append,
            repl2_cons_ne ha, ih ht]

theorem p2_flatMap {s : Str} (h : '\\' ∉ s) :
    repl2 '\\' ';' [';'] (s.flatMap e1Char) = s.flatMap e2Char := by
  induction s with
  | nil => rfl
  | cons a t ih =>
    have ht : '\\' ∉ t := fun hct => h (by simp [hct])
    have ha : ¬ a = '\\' := fun hac => h (by simp [hac])
    rw [List.flatMap_cons, List.flatMap_cons]
    by_cases h1 : a = ','
    · subst h1
      show repl2 '\\' ';' [';'] ('\\' :: ',' :: t.flatMap e1Char) = _
      rw [repl2, if_neg (by decide), repl2_cons_ne (by decide), ih ht]
      rfl
    · by_cases h2 : a = ';'
      · subst h2
        show repl2 '\\' ';' [';'] ('\\' :: ';' :: t.flatMap e1Char) = _
        rw [repl2, if_pos (by decide), ih ht]
        rfl
      · have he : e1Char a = [a] := by simp [e1Char, h1, h2]
        have he2 : e2Char a = [a] := by simp [e2Char, h1]
        rw [he, he2, List.singleton_append, List.singleton_append,
          repl2_cons_ne ha, ih ht]

theorem p3_flatMap {s : Str} (h : '\\' ∉ s) :
    repl2 '\\' ',' [','] (s.flatMap e2Char) = s := by
  induction s with
  | nil => rfl
  | cons a t ih =>
    have ht : '\\' ∉ t := fun hct => h (by simp [hct])
    have ha : ¬ a = '\\' := fun hac => h (by simp [hac])
    rw [List.flatMap_cons]
    by_cases h1 : a = ','
    · subst h1
      show repl2 '\\' ',' [','] ('\\' :: ',' :: t.flatMap e2Char) = _
      rw [repl2, if_pos (by decide), ih ht]
      rfl
    · have he : e2Char a = [a] := by simp [e2Char, h1]
      rw [he, List.singleton_append, repl2_cons_ne ha, ih ht]

/-- The codec's unescape is a left inverse of its escape on backslash-free
strings (sequential replacement makes it non-invertible in general). -/
theorem unescape_escape {s : Str} (h : '\\' ∉ s) :
    unescapeVCardValue (escapeVCardValue s) = s := by
  rw [escape_eq_flatMap h]
  unfold unescapeVCardValue
  rw [p1_flatMap h, p2_flatMap h, p3_flatMap h, repl2_not_mem h]

theorem not_contains {c : Char} {s : Str} (h : s.contains c = false) :
    c ∉ s := by
  intro hm
  induction s with
  | nil => simp at hm
  | cons a t ih =>
    rw [List.contains_cons] at h
    rcases List.mem_cons.mp hm with hm | hm
    · subst hm
      simp at h
    · exact ih (by simpa using (Bool.or_eq_false_iff.mp h).2) hm

/-! ## Property-line parsing lemmas -/

theorem splitFirst_append {c : Char} {x y : Str} (h : c ∉ x) :
    splitFirst c (x ++ c :: y) = some (x, y) := by
  induction x with
  | nil => simp [splitFirst]
  | cons a t ih =>
    have ha : ¬ a = c := fun hac => h (by simp [hac])
    have ht : c ∉ t := fun hct => h (by simp [hct])
    show splitFirst c (a :: (t ++ c :: y)) = _
    rw [splitFirst, if_neg ha, ih ht]
    rfl

theorem parseProp_noparam {nm v : Str} (h1 : ':' ∉ nm) (h2 : ';' ∉ nm)
    (h3 : nm.map Char.toUpper = nm) :
    parseVCardProperty (nm ++ ':' :: v) = some ⟨nm, v, []⟩ := by
  unfold parseVCardProperty
  rw [splitFirst_append h1]
  simp [splitOnChar_not_mem h2, h3]

theorem parseProp_typed {nm t v : Str} (h1 : ':' ∉ nm) (h2 : ';' ∉ nm)
    (h3 : nm.map Char.toUpper = nm) (h4 : ':' ∉ t) (h5 : ';' ∉ t) :
    parseVCardProperty (nm ++ ';' :: ("TYPE=").data ++ t ++ ':' :: v) =
      some ⟨nm, v, [(("TYPE").data, t)]⟩ := by
  have hTsemi : ';' ∉ ("TYPE=").data ++ t := by
    intro hm
    rcases List.mem_append.mp hm with hm | hm
    · exact absurd hm (by decide)
    · exact h5 hm
  have hx : ':' ∉ nm ++ ';' :: (("TYPE=").data ++ t) := by
    intro hm
    rcases List.mem_append.mp hm with hm | hm
    · exact h1 hm
    · rcases List.mem_cons.mp hm with hm | hm
      · exact absurd hm (by decide)
      · rcases List.mem_append.mp hm with hm | hm
        · exact absurd hm (by decide)
        · exact h4 hm
  have hre : nm ++ ';' :: ("TYPE=").data ++ t ++ ':' :: v =
      (nm ++ ';' :: (("TYPE=").data ++ t)) ++ ':' :: v := by
    simp [List.append_assoc]
  rw [hre]
  unfold parseVCardProperty
  rw [splitFirst_append hx]
  have hsp : splitOnChar ';' (nm ++ ';' :: (("TYPE=").data ++ t)) =
      nm :: [("TYPE=").data ++ t] := by
    rw [splitOnChar_append h2, splitOnChar_not_mem hTsemi]
  have hpar : splitFirst '=' (("TYPE=").data ++ t) = some (("TYPE").data, t) := by
    have heq : ("TYPE=").data ++ t = ("TYPE").data ++ '=' :: t := rfl
    rw [heq]
    exact splitFirst_append (by decide)
  simp only [hsp, List.headD_cons, h3, List.tail_cons, List.filterMap, hpar]

/-! ## addPropertyToCard computation lemmas -/

theorem addProp_VERSION (cur : VCard) (v : Str) (ps : List (Str × Str)) :
    addPropertyToCard cur ⟨("VERSION").data, v, ps⟩ =
      { cur with version := some v } := rfl

theorem addProp_UID (cur : VCard) (v : Str) (ps : List (Str × Str)) :
    addPropertyToCard cur ⟨("UID").data, v, ps⟩ =
      { cur with uid := some v } := rfl

theorem addProp_FN (cur : VCard) (v : Str) (ps : List (Str × Str)) :
    addPropertyToCard cur ⟨("FN").data, v, ps⟩ =
      { cur with fn := some (unescapeVCardValue v) } := rfl

theorem addProp_N (cur : VCard) (v : Str) (ps : List (Str × Str)) :
    addPropertyToCard cur ⟨("N").data, v, ps⟩ =
      { cur with n := some ((splitOnChar ';' v).map unescapeVCardValue) } := rfl

theorem addProp_TITLE (cur : VCard) (v : Str) (ps : List (Str × Str)) :
    addPropertyToCard cur ⟨("TITLE").data, v, ps⟩ =
      { cur with title := some (unescapeVCardValue v) } := rfl

theorem addProp_ORG (cur : VCard) (v : Str) (ps : List (Str × Str)) :
    addPropertyToCard cur ⟨("ORG").data, v, ps⟩ =
      { cur with org := some ((splitOnChar ';' v).map unescapeVCardValue) } := rfl

theorem addProp_EMAIL (cur : VCard) (v : Str) (ps : List (Str × Str)) :
    addPropertyToCard cur ⟨("EMAIL").data, v, ps⟩ =
      { cur with email := some ((cur.email.getD []) ++ [⟨v, lookupTYPE ps⟩]) } := rfl

theorem addProp_TEL (cur : VCard) (v : Str) (ps : List (Str × Str)) :
    addPropertyToCard cur ⟨("TEL").data, v, ps⟩ =
      { cur with tel := some ((cur.tel.getD []) ++ [⟨v, lookupTYPE ps⟩]) } := rfl

theorem addProp_ADR (cur : VCard) (v : Str) (ps : List (Str × Str)) :
    addPropertyToCard cur ⟨("ADR").data, v, ps⟩ =
      { cur with adr := some ((cur.adr.getD []) ++
          [⟨(splitOnChar ';' v).map unescapeVCardValue, lookupTYPE ps⟩]) } := rfl

theorem addProp_URL (cur : VCard) (v : Str) (ps : List (Str × Str)) :
    addPropertyToCard cur ⟨("URL").data, v, ps⟩ =
      { cur with url := some ((cur.url.getD []) ++ [v]) } := rfl

theorem addProp_NOTE (cur : VCard) (v : Str) (ps : List (Str × Str)) :
    addPropertyToCard cur ⟨("NOTE").data, v, ps⟩ =
      { cur with note := some (unescapeVCardValue v) } := rfl

theorem addProp_CATEGORIES (cur : VCard) (v : Str) (ps : List (Str × Str)) :
    addPropertyToCard cur ⟨("CATEGORIES").data, v, ps⟩ =
      { cur with categories := some ((splitOnChar ',' v).map trimWS) } := rfl

theorem lookupTYPE_nil : lookupTYPE [] = none := rfl

theorem lookupTYPE_single (t : Str) :
    lookupTYPE [(("TYPE").data, t)] = some t := rfl

/-! ## Parse-loop lemmas -/

theorem parseLoop_cons_good {l : Str} {rest : List Str} {cards : List VCard}
    {cur : VCard} (h : goodLine l) :
    parseLoop (l :: rest) cards cur true =
      parseLoop rest cards (applyLine cur l) true := by
  obtain ⟨hb, he, hn, hh⟩ := h
  have hcond : ¬ (true = false ∨ l = [] ∨ l.headD ' ' = '#') := by
    rintro (hc | hc | hc)
    · simp at hc
    · exact hn hc
    · exact hh hc
  rw [parseLoop, if_neg hb, if_neg he, if_neg hcond]
  cases hp : parseVCardProperty l <;> simp [applyLine, hp]

theorem parseLoop_good {ls : List Str} : ∀ {rest : List Str}
    {cards : List VCard} {cur : VCard}, (∀ l ∈ ls, goodLine l) →
    parseLoop (ls ++ rest) cards cur true =
      parseLoop rest cards (procLines cur ls) true := by
  induction ls with
  | nil => intro rest cards cur _; rfl
  | cons l t ih =>
    intro rest cards cur h
    rw [List.cons_append, parseLoop_cons_good (h l (by simp))]
    exact ih (fun x hx => h x (by simp [hx]))

theorem procLines_append (cur : VCard) (x y : List Str) :
    procLines cur (x ++ y) = procLines (procLines cur x) y := by
  unfold procLines
  exact List.foldl_append _ _ _ _

/-! ## Well-formedness unpacking -/

theorem ne_nil_of_isEmpty_false {α : Type} {l : List α}
    (h : l.isEmpty = false) : l ≠ [] := by
  cases l <;> simp_all

theorem wfUidB_spec {u : Str} (h : wfUidB u = true) :
    u ≠ [] ∧ '\n' ∉ u ∧ noTrailWSb u = true := by
  simp only [wfUidB, Bool.and_eq_true, Bool.not_eq_true'] at h
  exact ⟨ne_nil_of_isEmpty_false h.1.1, not_contains h.1.2, h.2⟩

theorem wfEscB_spec {s : Str} (h : wfEscB s = true) :
    s ≠ [] ∧ '\\' ∉ s ∧ noTrailWSb (escapeVCardValue s) = true := by
  simp only [wfEscB, Bool.and_eq_true, Bool.not_eq_true'] at h
  exact ⟨ne_nil_of_isEmpty_false h.1.1, not_contains h.1.2, h.2⟩

theorem wfCompB_spec {s : Str} (h : wfCompB s = true) :
    '\\' ∉ s ∧ ';' ∉ s ∧ noTrailWSb (escapeVCardValue s) = true := by
  simp only [wfCompB, Bool.and_eq_true, Bool.not_eq_true'] at h
  exact ⟨not_contains h.1.1, not_contains h.1.2, h.2⟩

theorem wfRawValB_spec {v : Str} (h : wfRawValB v = true) :
    '\n' ∉ v ∧ noTrailWSb v = true := by
  simp only [wfRawValB, Bool.and_eq_true, Bool.not_eq_true'] at h
  exact ⟨not_contains h.1, h.2⟩

theorem wfTypeB_some_spec {t : Str} (h : wfTypeB (some t) = true) :
    t ≠ [] ∧ ':' ∉ t ∧ ';' ∉ t ∧ '\n' ∉ t := by
  simp only [wfTypeB, Bool.and_eq_true, Bool.not_eq_true'] at h
  exact ⟨ne_nil_of_isEmpty_false h.1.1.1, not_contains h.1.1.2,
    not_contains h.1.2, not_contains h.2⟩

theorem wfCatB_spec {s : Str} (h : wfCatB s = true) :
    ',' ∉ s ∧ '\n' ∉ s ∧ trimWS s = s ∧ noTrailWSb s = true := by
  simp only [wfCatB, Bool.and_eq_true, Bool.not_eq_true', beq_iff_eq] at h
  exact ⟨not_contains h.1.1.1, not_contains h.1.1.2, h.1.2, h.2⟩

/-! ## Per-field segment processing lemmas -/

theorem proc_uidLines {cur : VCard} {o : Option Str}
    (h : wfOpt wfUidB o = true) (h0 : cur.uid = none) :
    procLines cur (uidLines o) = { cur with uid := o } := by
  cases o with
  | none =>
    show cur = { cur with uid := none }
    cases cur
    simp_all
  | some u =>
    obtain ⟨hne, _, _⟩ := wfUidB_spec h
    rw [uidLines, if_pos hne]
    show applyLine cur (("UID:").data ++ u) = _
    unfold applyLine
    rw [show ("UID:").data ++ u = ("UID").data ++ ':' :: u from rfl,
      parseProp_noparam (by decide) (by decide) (by decide)]
    exact addProp_UID cur u []

theorem proc_fnLines {cur : VCard} {o : Option Str}
    (h : wfOpt wfEscB o = true) (h0 : cur.fn = none) :
    procLines cur (fnLines o) = { cur with fn := o } := by
  cases o with
  | none =>
    show cur = { cur with fn := none }
    cases cur
    simp_all
  | some f =>
    obtain ⟨hne, hnb, _⟩ := wfEscB_spec h
    rw [fnLines, if_pos hne]
    show applyLine cur (("FN:").data ++ escapeVCardValue f) = _
    unfold applyLine
    rw [show ("FN:").data ++ escapeVCardValue f =
        ("FN").data ++ ':' :: escapeVCardValue f from rfl,
      parseProp_noparam (by decide) (by decide) (by decide)]
    have hstep := addProp_FN cur (escapeVCardValue f) []
    rw [unescape_escape hnb] at hstep
    exact hstep

theorem proc_titleLines {cur : VCard} {o : Option Str}
    (h : wfOpt wfEscB o = true) (h0 : cur.title = none) :
    procLines cur (titleLines o) = { cur with title := o } := by
  cases o with
  | none =>
    show cur = { cur with title := none }
    cases cur
    simp_all
  | some f =>
    obtain ⟨hne, hnb, _⟩ := wfEscB_spec h
    rw [titleLines, if_pos hne]
    show applyLine cur (("TITLE:").data ++ escapeVCardValue f) = _
    unfold applyLine
    rw [show ("TITLE:").data ++ escapeVCardValue f =
        ("TITLE").data ++ ':' :: escapeVCardValue f from rfl,
      parseProp_noparam (by decide) (by decide) (by decide)]
    have hstep := addProp_TITLE cur (escapeVCardValue f) []
    rw [unescape_escape hnb] at hstep
    exact hstep

theorem proc_noteLines {cur : VCard} {o : Option Str}
    (h : wfOpt wfEscB o = true) (h0 : cur.note = none) :
    procLines cur (noteLines o) = { cur with note := o } := by
  cases o with
  | none =>
    show cur = { cur with note := none }
    cases cur
    simp_all
  | some f =>
    obtain ⟨hne, hnb, _⟩ := wfEscB_spec h
    rw [noteLines, if_pos hne]
    show applyLine cur (("NOTE:").data ++ escapeVCardValue f) = _
    unfold applyLine
    rw [show ("NOTE:").data ++ escapeVCardValue f =
        ("NOTE").data ++ ':' :: escapeVCardValue f from rfl,
      parseProp_noparam (by decide) (by decide) (by decide)]
    have hstep := addProp_NOTE cur (escapeVCardValue f) []
    rw [unescape_escape hnb] at hstep
    exact hstep

/-- Splitting the semicolon join of escaped well-formed components and
unescaping recovers the components. -/
theorem split_unescape_comps {comps : List Str} (hne : comps ≠ [])
    (h : comps.all wfCompB = true) :
    (splitOnChar ';' (joinSep [';'] (comps.map escapeVCardValue))).map
      unescapeVCardValue = comps := by
  have hmem : ∀ p ∈ comps.map escapeVCardValue, ';' ∉ p := by
    intro p hp
    obtain ⟨x, hx, rfl⟩ := List.mem_map.mp hp
    exact not_mem_escape_semi (wfCompB_spec (List.all_eq_true.mp h x hx)).2.1
  rw [splitOnChar_joinSep (by simpa using hne) hmem, List.map_map]
  have : ∀ x ∈ comps, (unescapeVCardValue ∘ escapeVCardValue) x = id x := by
    intro x hx
    exact unescape_escape (wfCompB_spec (List.all_eq_true.mp h x hx)).1
  rw [List.map_congr_left this, List.map_id]

theorem proc_nLines {cur : VCard} {o : Option (List Str)}
    (h : wfOptList wfCompB o = true) (h0 : cur.n = none) :
    procLines cur (nLines o) = { cur with n := o } := by
  cases o with
  | none =>
    show cur = { cur with n := none }
    cases cur
    simp_all
  | some comps =>
    simp only [wfOptList, Bool.and_eq_true, Bool.not_eq_true'] at h
    have hne : comps ≠ [] := ne_nil_of_isEmpty_false h.1
    rw [nLines, if_pos hne]
    show applyLine cur (("N:").data ++ joinSep [';'] (comps.map escapeVCardValue)) = _
    unfold applyLine
    rw [show ("N:").data ++ joinSep [';'] (comps.map escapeVCardValue) =
        ("N").data ++ ':' :: joinSep [';'] (comps.map escapeVCardValue) from rfl,
      parseProp_noparam (by decide) (by decide) (by decide)]
    have hstep := addProp_N cur (joinSep [';'] (comps.map escapeVCardValue)) []
    rw [split_unescape_comps hne h.2] at hstep
    exact hstep

theorem proc_orgLines {cur : VCard} {o : Option (List Str)}
    (h : wfOptList wfCompB o = true) (h0 : cur.org = none) :
    procLines cur (orgLines o) = { cur with org := o } := by
  cases o with
  | none =>
    show cur = { cur with org := none }
    cases cur
    simp_all
  | some comps =>
    simp only [wfOptList, Bool.and_eq_true, Bool.not_eq_true'] at h
    have hne : comps ≠ [] := ne_nil_of_isEmpty_false h.1
    rw [orgLines, if_pos hne]
    show applyLine cur (("ORG:").data ++ joinSep [';'] (comps.map escapeVCardValue)) = _
    unfold applyLine
    rw [show ("ORG:").data ++ joinSep [';'] (comps.map escapeVCardValue) =
        ("ORG").data ++ ':' :: joinSep [';'] (comps.map escapeVCardValue) from rfl,
      parseProp_noparam (by decide) (by decide) (by decide)]
    have hstep := addProp_ORG cur (joinSep [';'] (comps.map escapeVCardValue)) []
    rw [split_unescape_comps hne h.2] at hstep
    exact hstep

theorem proc_catLines {cur : VCard} {o : Option (List Str)}
    (h : wfOptList wfCatB o = true) (h0 : cur.categories = none) :
    procLines cur (catLines o) = { cur with categories := o } := by
  cases o with
  | none =>
    show cur = { cur with categories := none }
    cases cur
    simp_all
  | some cs =>
    simp only [wfOptList, Bool.and_eq_true, Bool.not_eq_true'] at h
    have hne : cs ≠ [] := ne_nil_of_isEmpty_false h.1
    rw [catLines, if_pos hne]
    show applyLine cur (("CATEGORIES:").data ++ joinSep [','] cs) = _
    unfold applyLine
    rw [show ("CATEGORIES:").data ++ joinSep [','] cs =
        ("CATEGORIES").data ++ ':' :: joinSep [','] cs from rfl,
      parseProp_noparam (by decide) (by decide) (by decide)]
    have hmem : ∀ p ∈ cs, ',' ∉ p := by
      intro p hp
      exact (wfCatB_spec (List.all_eq_true.mp h.2 p hp)).1
    have htr : ∀ x ∈ cs, trimWS x = id x := by
      intro x hx
      exact (wfCatB_spec (List.all_eq_true.mp h.2 x hx)).2.2.1
    have hstep := addProp_CATEGORIES cur (joinSep [','] cs) []
    rw [splitOnChar_joinSep hne hmem, List.map_congr_left htr, List.map_id] at hstep
    exact hstep

/-- One EMAIL line parses back to its entry. -/
theorem applyLine_mail_email {cur : VCard} {e : EmailEntry}
    (h : wfEntryB e = true) :
    applyLine cur (("EMAIL").data ++ typeSeg e.type? ++ ':' :: e.value) =
      { cur with email := some ((cur.email.getD []) ++ [e]) } := by
  obtain ⟨v, t⟩ := e
  simp only [wfEntryB, Bool.and_eq_true] at h
  cases t with
  | none =>
    unfold applyLine
    rw [show ("EMAIL").data ++ typeSeg none ++ ':' :: v =
        ("EMAIL").data ++ ':' :: v from by simp [typeSeg],
      parseProp_noparam (by decide) (by decide) (by decide)]
    exact addProp_EMAIL cur v []
  | some ty =>
    obtain ⟨htne, ht1, ht2, _⟩ := wfTypeB_some_spec h.2
    unfold applyLine
    rw [show ("EMAIL").data ++ typeSeg (some ty) ++ ':' :: v =
        ("EMAIL").data ++ ';' :: ("TYPE=").data ++ ty ++ ':' :: v from by
          simp [typeSeg, htne, List.append_assoc],
      parseProp_typed (by decide) (by decide) (by decide) ht1 ht2]
    have hstep := addProp_EMAIL cur v [(("TYPE").data, ty)]
    rw [lookupTYPE_single] at hstep
    exact hstep

/-- One TEL line parses back to its entry. -/
theorem applyLine_mail_tel {cur : VCard} {e : EmailEntry}
    (h : wfEntryB e = true) :
    applyLine cur (("TEL").data ++ typeSeg e.type? ++ ':' :: e.value) =
      { cur with tel := some ((cur.tel.getD []) ++ [e]) } := by
  obtain ⟨v, t⟩ := e
  simp only [wfEntryB, Bool.and_eq_true] at h
  cases t with
  | none =>
    unfold applyLine
    rw [show ("TEL").data ++ typeSeg none ++ ':' :: v =
        ("TEL").data ++ ':' :: v from by simp [typeSeg],
      parseProp_noparam (by decide) (by decide) (by decide)]
    exact addProp_TEL cur v []
  | some ty =>
    obtain ⟨htne, ht1, ht2, _⟩ := wfTypeB_some_spec h.2
    unfold applyLine
    rw [show ("TEL").data ++ typeSeg (some ty) ++ ':' :: v =
        ("TEL").data ++ ';' :: ("TYPE=").data ++ ty ++ ':' :: v from by
          simp [typeSeg, htne, List.append_assoc],
      parseProp_typed (by decide) (by decide) (by decide) ht1 ht2]
    have hstep := addProp_TEL cur v [(("TYPE").data, ty)]
    rw [lookupTYPE_single] at hstep
    exact hstep

/-- One ADR line parses back to its entry. -/
theorem applyLine_adr {cur : VCard} {a : AdrEntry} (h : wfAdrB a = true) :
    applyLine cur (("ADR").data ++ typeSeg a.type? ++ ':' ::
        joinSep [';'] (a.value.map escapeVCardValue)) =
      { cur with adr := some ((cur.adr.getD []) ++ [a]) } := by
  obtain ⟨comps, t⟩ := a
  simp only [wfAdrB, Bool.and_eq_true, Bool.not_eq_true'] at h
  have hne : comps ≠ [] := ne_nil_of_isEmpty_false h.1.1
  cases t with
  | none =>
    unfold applyLine
    rw [show ("ADR").data ++ typeSeg none ++ ':' ::
          joinSep [';'] (comps.map escapeVCardValue) =
        ("ADR").data ++ ':' :: joinSep [';'] (comps.map escapeVCardValue) from by
          simp [typeSeg],
      parseProp_noparam (by decide) (by decide) (by decide)]
    have hstep := addProp_ADR cur (joinSep [';'] (comps.map escapeVCardValue)) []
    rw [split_unescape_comps hne h.1.2] at hstep
    exact hstep
  | some ty =>
    obtain ⟨htne, ht1, ht2, _⟩ := wfTypeB_some_spec h.2
    unfold applyLine
    rw [show ("ADR").data ++ typeSeg (some ty) ++ ':' ::
          joinSep [';'] (comps.map escapeVCardValue) =
        ("ADR").data ++ ';' :: ("TYPE=").data ++ ty ++ ':' ::
          joinSep [';'] (comps.map escapeVCardValue) from by
          simp [typeSeg, htne, List.append_assoc],
      parseProp_typed (by decide) (by decide) (by decide) ht1 ht2]
    have hstep := addProp_ADR cur (joinSep [';'] (comps.map escapeVCardValue))
      [(("TYPE").data, ty)]
    rw [lookupTYPE_single, split_unescape_comps hne h.1.2] at hstep
    exact hstep

theorem proc_mailCons_email {es : List EmailEntry} : ∀ {cur : VCard},
    es ≠ [] → es.all wfEntryB = true →
    procLines cur (mailLines (("EMAIL").data) (some es)) =
      { cur with email := some ((cur.email.getD []) ++ es) } := by
  induction es with
  | nil => intro cur hne _; exact absurd rfl hne
  | cons e t ih =>
    intro cur _ hall
    simp only [List.all_cons, Bool.and_eq_true] at hall
    show procLines
      (applyLine cur (("EMAIL").data ++ typeSeg e.type? ++ ':' :: e.value))
      (mailLines (("EMAIL").data) (some t)) = _
    rw [applyLine_mail_email hall.1]
    cases t with
    | nil =>
      show { cur with email := some ((cur.email.getD []) ++ [e]) } = _
      rfl
    | cons q m =>
      rw [ih (by simp) hall.2]
      simp [List.append_assoc]

theorem proc_mailCons_tel {es : List EmailEntry} : ∀ {cur : VCard},
    es ≠ [] → es.all wfEntryB = true →
    procLines cur (mailLines (("TEL").data) (some es)) =
      { cur with tel := some ((cur.tel.getD []) ++ es) } := by
  induction es with
  | nil => intro cur hne _; exact absurd rfl hne
  | cons e t ih =>
    intro cur _ hall
    simp only [List.all_cons, Bool.and_eq_true] at hall
    show procLines
      (applyLine cur (("TEL").data ++ typeSeg e.type? ++ ':' :: e.value))
      (mailLines (("TEL").data) (some t)) = _
    rw [applyLine_mail_tel hall.1]
    cases t with
    | nil =>
      show { cur with tel := some ((cur.tel.getD []) ++ [e]) } = _
      rfl
    | cons q m =>
      rw [ih (by simp) hall.2]
      simp [List.append_assoc]

theorem proc_adrCons {es : List AdrEntry} : ∀ {cur : VCard},
    es ≠ [] → es.all wfAdrB = true →
    procLines cur (adrLines (some es)) =
      { cur with adr := some ((cur.adr.getD []) ++ es) } := by
  induction es with
  | nil => intro cur hne _; exact absurd rfl hne
  | cons e t ih =>
    intro cur _ hall
    simp only [List.all_cons, Bool.and_eq_true] at hall
    show procLines
      (applyLine cur (("ADR").data ++ typeSeg e.type? ++ ':' ::
        joinSep [';'] (e.value.map escapeVCardValue)))
      (adrLines (some t)) = _
    rw [applyLine_adr hall.1]
    cases t with
    | nil =>
      show { cur with adr := some ((cur.adr.getD []) ++ [e]) } = _
      rfl
    | cons q m =>
      rw [ih (by simp) hall.2]
      simp [List.append_assoc]

theorem proc_urlCons {us : List Str} : ∀ {cur : VCard}, us ≠ [] →
    procLines cur (urlLines (some us)) =
      { cur with url := some ((cur.url.getD []) ++ us) } := by
  induction us with
  | nil => intro cur hne; exact absurd rfl hne
  | cons u t ih =>
    intro cur _
    show procLines (applyLine cur (("URL:").data ++ u)) (urlLines (some t)) = _
    have hu : applyLine cur (("URL:").data ++ u) =
        { cur with url := some ((cur.url.getD []) ++ [u]) } := by
      unfold applyLine
      rw [show ("URL:").data ++ u = ("URL").data ++ ':' :: u from rfl,
        parseProp_noparam (by decide) (by decide) (by decide)]
      exact addProp_URL cur u []
    rw [hu]
    cases t with
    | nil =>
      show { cur with url := some ((cur.url.getD []) ++ [u]) } = _
      rfl
    | cons q m =>
      rw [ih (by simp)]
      simp [List.append_assoc]

theorem proc_emailSeg {cur : VCard} {o : Option (List EmailEntry)}
    (h : wfOptList wfEntryB o = true) (h0 : cur.email = none) :
    procLines cur (mailLines (("EMAIL").data) o) = { cur with email := o } := by
  cases o with
  | none =>
    show cur = { cur with email := none }
    cases cur
    simp_all
  | some es =>
    simp only [wfOptList, Bool.and_eq_true, Bool.not_eq_true'] at h
    rw [proc_mailCons_email (ne_nil_of_isEmpty_false h.1) h.2, h0]
    rfl

theorem proc_telSeg {cur : VCard} {o : Option (List EmailEntry)}
    (h : wfOptList wfEntryB o = true) (h0 : cur.tel = none) :
    procLines cur (mailLines (("TEL").data) o) = { cur with tel := o } := by
  cases o with
  | none =>
    show cur = { cur with tel := none }
    cases cur
    simp_all
  | some es =>
    simp only [wfOptList, Bool.and_eq_true, Bool.not_eq_true'] at h
    rw [proc_mailCons_tel (ne_nil_of_isEmpty_false h.1) h.2, h0]
    rfl

theorem proc_adrSeg {cur : VCard} {o : Option (List AdrEntry)}
    (h : wfOptList wfAdrB o = true) (h0 : cur.adr = none) :
    procLines cur (adrLines o) = { cur with adr := o } := by
  cases o with
  | none =>
    show cur = { cur with adr := none }
    cases cur
    simp_all
  | some es =>
    simp only [wfOptList, Bool.and_eq_true, Bool.not_eq_true'] at h
    rw [proc_adrCons (ne_nil_of_isEmpty_false h.1) h.2, h0]
    rfl

theorem proc_urlSeg {cur : VCard} {o : Option (List Str)}
    (h : wfOptList wfRawValB o = true) (h0 : cur.url = none) :
    procLines cur (urlLines o) = { cur with url := o } := by
  cases o with
  | none =>
    show cur = { cur with url := none }
    cases cur
    simp_all
  | some us =>
    simp only [wfOptList, Bool.and_eq_true, Bool.not_eq_true'] at h
    rw [proc_urlCons (ne_nil_of_isEmpty_false h.1), h0]
    rfl

/-! ## Line validity lemmas -/

theorem noTrail_append {x v : Str} (hx : noTrailWSb x = true)
    (hv : noTrailWSb v = true) : noTrailWSb (x ++ v) = true := by
  unfold noTrailWSb at *
  rw [List.reverse_append]
  cases hv' : v.reverse with
  | nil => simpa using hx
  | cons b m =>
    rw [hv'] at hv
    simpa using hv

theorem noTrail_joinSep {sep : Str} {ps : List Str}
    (hsep : noTrailWSb sep = true) (h : ∀ p ∈ ps, noTrailWSb p = true) :
    noTrailWSb (joinSep sep ps) = true := by
  induction ps with
  | nil => rfl
  | cons l t ih =>
    cases t with
    | nil => exact h l (by simp)
    | cons q m =>
      have hj : joinSep sep (l :: q :: m) =
          l ++ (sep ++ joinSep sep (q :: m)) := by
        simp [joinSep, List.append_assoc]
      rw [hj]
      exact noTrail_append (h l (by simp))
        (noTrail_append hsep (ih (fun p hp => h p (by simp [hp]))))

theorem mem_joinSep {x : Char} {sep : Str} {ps : List Str}
    (h : x ∈ joinSep sep ps) : x ∈ sep ∨ ∃ p ∈ ps, x ∈ p := by
  induction ps with
  | nil => simp [joinSep] at h
  | cons l t ih =>
    cases t with
    | nil =>
      simp only [joinSep] at h
      exact Or.inr ⟨l, by simp, h⟩
    | cons q m =>
      have hj : joinSep sep (l :: q :: m) =
          l ++ sep ++ joinSep sep (q :: m) := by
        simp [joinSep]
      rw [hj] at h
      rcases List.mem_append.mp h with h | h
      · rcases List.mem_append.mp h with h | h
        · exact Or.inr ⟨l, by simp, h⟩
        · exact Or.inl h
      · rcases ih h with h | ⟨p, hp, hx⟩
        · exact Or.inl h
        · exact Or.inr ⟨p, by simp [hp], hx⟩

theorem lineOK_pre {pre body : Str} (h1 : '\n' ∉ pre) (h2 : '\n' ∉ body)
    (h3 : isWS (pre.headD ':') = false) (hpre : pre ≠ [])
    (h4 : noTrailWSb pre = true) (h5 : noTrailWSb body = true) :
    lineOK (pre ++ body) := by
  refine ⟨?_, ?_, noTrail_append h4 h5⟩
  · intro hm
    rcases List.mem_append.mp hm with hm | hm
    · exact h1 hm
    · exact h2 hm
  · cases pre with
    | nil => exact absurd rfl hpre
    | cons a t => simpa using h3

theorem goodLine_cons2 {a b : Char} {rest : Str}
    (h1 : ¬ (a = 'B' ∧ b = 'E')) (h2 : ¬ (a = 'E' ∧ b = 'N'))
    (h3 : a ≠ '#') : goodLine (a :: b :: rest) := by
  refine ⟨?_, ?_, List.cons_ne_nil _ _, by simpa using h3⟩
  · intro he
    rw [show ("BEGIN:VCARD").data = 'B' :: 'E' :: ("GIN:VCARD").data from rfl] at he
    injection he with ha he2
    injection he2 with hb _
    exact h1 ⟨ha, hb⟩
  · intro he
    rw [show ("END:VCARD").data = 'E' :: 'N' :: ("D:VCARD").data from rfl] at he
    injection he with ha he2
    injection he2 with hb _
    exact h2 ⟨ha, hb⟩

theorem noTrail_append_right {x v : Str} (hv : v ≠ [])
    (h : noTrailWSb v = true) : noTrailWSb (x ++ v) = true := by
  unfold noTrailWSb at *
  rw [List.reverse_append]
  cases hv' : v.reverse with
  | nil => exact absurd (by simpa using hv') hv
  | cons b m =>
    rw [hv'] at h
    simpa using h

theorem noTrail_colon {v : Str} (h : noTrailWSb v = true) :
    noTrailWSb (':' :: v) = true := by
  cases hv : v with
  | nil => rfl
  | cons a m =>
    exact noTrail_append_right (x := [':']) (by simp) (hv ▸ h)

/-- Newlines never occur in an emitted `;TYPE=` segment. -/
theorem typeSeg_no_nl {t : Option Str} (h : wfTypeB t = true) :
    '\n' ∉ typeSeg t := by
  cases t with
  | none => simp [typeSeg]
  | some ty =>
    obtain ⟨htne, _, _, hnl⟩ := wfTypeB_some_spec h
    rw [typeSeg, if_pos htne]
    intro hm
    rcases List.mem_append.mp hm with hm | hm
    · exact absurd hm (by decide)
    · exact hnl hm

theorem uidLines_ok {o : Option Str} (h : wfOpt wfUidB o = true) :
    ∀ l ∈ uidLines o, lineOK l ∧ goodLine l := by
  cases o with
  | none => intro l hl; simp [uidLines] at hl
  | some u =>
    obtain ⟨hne, hnl, htr⟩ := wfUidB_spec h
    intro l hl
    rw [uidLines, if_pos hne] at hl
    rw [List.mem_singleton] at hl
    subst hl
    exact ⟨lineOK_pre (by decide) hnl (by decide) (by decide) (by decide) htr,
      goodLine_cons2 (by decide) (by decide) (by decide)⟩

theorem fnLines_ok {o : Option Str} (h : wfOpt wfEscB o = true) :
    ∀ l ∈ fnLines o, lineOK l ∧ goodLine l := by
  cases o with
  | none => intro l hl; simp [fnLines] at hl
  | some f =>
    obtain ⟨hne, _, htr⟩ := wfEscB_spec h
    intro l hl
    rw [fnLines, if_pos hne] at hl
    rw [List.mem_singleton] at hl
    subst hl
    exact ⟨lineOK_pre (by decide) (not_mem_escape_nl f) (by decide) (by decide)
        (by decide) htr,
      goodLine_cons2 (by decide) (by decide) (by decide)⟩

theorem titleLines_ok {o : Option Str} (h : wfOpt wfEscB o = true) :
    ∀ l ∈ titleLines o, lineOK l ∧ goodLine l := by
  cases o with
  | none => intro l hl; simp [titleLines] at hl
  | some f =>
    obtain ⟨hne, _, htr⟩ := wfEscB_spec h
    intro l hl
    rw [titleLines, if_pos hne] at hl
    rw [List.mem_singleton] at hl
    subst hl
    exact ⟨lineOK_pre (by decide) (not_mem_escape_nl f) (by decide) (by decide)
        (by decide) htr,
      goodLine_cons2 (by decide) (by decide) (by decide)⟩

theorem noteLines_ok {o : Option Str} (h : wfOpt wfEscB o = true) :
    ∀ l ∈ noteLines o, lineOK l ∧ goodLine l := by
  cases o with
  | none => intro l hl; simp [noteLines] at hl
  | some f =>
    obtain ⟨hne, _, htr⟩ := wfEscB_spec h
    intro l hl
    rw [noteLines, if_pos hne] at hl
    rw [List.mem_singleton] at hl
    subst hl
    exact ⟨lineOK_pre (by decide) (not_mem_escape_nl f) (by decide) (by decide)
        (by decide) htr,
      goodLine_cons2 (by decide) (by decide) (by decide)⟩

/-- The newline-freedom and trailing-whitespace facts for a joined list of
escaped well-formed components. -/
theorem joined_comps_facts {comps : List Str} (h : comps.all wfCompB = true) :
    '\n' ∉ joinSep [';'] (comps.map escapeVCardValue) ∧
    noTrailWSb (joinSep [';'] (comps.map escapeVCardValue)) = true := by
  constructor
  · intro hm
    rcases mem_joinSep hm with hm | ⟨p, hp, hx⟩
    · exact absurd hm (by decide)
    · obtain ⟨x, _, rfl⟩ := List.mem_map.mp hp
      exact not_mem_escape_nl x hx
  · refine noTrail_joinSep (by decide) ?_
    intro p hp
    obtain ⟨x, hx, rfl⟩ := List.mem_map.mp hp
    exact (wfCompB_spec (List.all_eq_true.mp h x hx)).2.2

theorem nLines_ok {o : Option (List Str)} (h : wfOptList wfCompB o = true) :
    ∀ l ∈ nLines o, lineOK l ∧ goodLine l := by
  cases o with
  | none => intro l hl; simp [nLines] at hl
  | some comps =>
    simp only [wfOptList, Bool.and_eq_true, Bool.not_eq_true'] at h
    obtain ⟨hnl, htr⟩ := joined_comps_facts h.2
    intro l hl
    rw [nLines, if_pos (ne_nil_of_isEmpty_false h.1)] at hl
    rw [List.mem_singleton] at hl
    subst hl
    exact ⟨lineOK_pre (by decide) hnl (by decide) (by decide) (by decide) htr,
      goodLine_cons2 (by decide) (by decide) (by decide)⟩

theorem orgLines_ok {o : Option (List Str)} (h : wfOptList wfCompB o = true) :
    ∀ l ∈ orgLines o, lineOK l ∧ goodLine l := by
  cases o with
  | none => intro l hl; simp [orgLines] at hl
  | some comps =>
    simp only [wfOptList, Bool.and_eq_true, Bool.not_eq_true'] at h
    obtain ⟨hnl, htr⟩ := joined_comps_facts h.2
    intro l hl
    rw [orgLines, if_pos (ne_nil_of_isEmpty_false h.1)] at hl
    rw [List.mem_singleton] at hl
    subst hl
    exact ⟨lineOK_pre (by decide) hnl (by decide) (by decide) (by decide) htr,
      goodLine_cons2 (by decide) (by decide) (by decide)⟩

theorem catLines_ok {o : Option (List Str)} (h : wfOptList wfCatB o = true) :
    ∀ l ∈ catLines o, lineOK l ∧ goodLine l := by
  cases o with
  | none => intro l hl; simp [catLines] at hl
  | some cs =>
    simp only [wfOptList, Bool.and_eq_true, Bool.not_eq_true'] at h
    intro l hl
    rw [catLines, if_pos (ne_nil_of_isEmpty_false h.1)] at hl
    rw [List.mem_singleton] at hl
    subst hl
    have hnl : '\n' ∉ joinSep [','] cs := by
      intro hm
      rcases mem_joinSep hm with hm | ⟨p, hp, hx⟩
      · exact absurd hm (by decide)
      · exact (wfCatB_spec (List.all_eq_true.mp h.2 p hp)).2.1 hx
    have htr : noTrailWSb (joinSep [','] cs) = true := by
      refine noTrail_joinSep (by decide) ?_
      intro p hp
      exact (wfCatB_spec (List.all_eq_true.mp h.2 p hp)).2.2.2
    exact ⟨lineOK_pre (by decide) hnl (by decide) (by decide) (by decide) htr,
      goodLine_cons2 (by decide) (by decide) (by decide)⟩

/-- Line validity for a property line carrying an optional TYPE segment:
`pre ++ typeSeg t ++ ':' :: body`. -/
theorem typed_line_ok {a b : Char} {r : Str} {t : Option Str} {body : Str}
    (hpre : '\n' ∉ (a :: b :: r : Str)) (hws : isWS a = false)
    (ht : wfTypeB t = true) (hbnl : '\n' ∉ body)
    (hbtr : noTrailWSb body = true) :
    lineOK ((a :: b :: r : Str) ++ typeSeg t ++ ':' :: body) := by
  refine ⟨?_, ?_, ?_⟩
  · intro hm
    rcases List.mem_append.mp hm with hm | hm
    · rcases List.mem_append.mp hm with hm | hm
      · exact hpre hm
      · exact typeSeg_no_nl ht hm
    · rcases List.mem_cons.mp hm with hm | hm
      · exact absurd hm (by decide)
      · exact hbnl hm
  · simpa using hws
  · exact noTrail_append_right (by simp) (noTrail_colon hbtr)

theorem mailLines_email_ok {o : Option (List EmailEntry)}
    (h : wfOptList wfEntryB o = true) :
    ∀ l ∈ mailLines (("EMAIL").data) o, lineOK l ∧ goodLine l := by
  cases o with
  | none => intro l hl; simp [mailLines] at hl
  | some es =>
    simp only [wfOptList, Bool.and_eq_true, Bool.not_eq_true'] at h
    intro l hl
    rw [mailLines] at hl
    obtain ⟨e, he, rfl⟩ := List.mem_map.mp hl
    have hwf := List.all_eq_true.mp h.2 e he
    simp only [wfEntryB, Bool.and_eq_true] at hwf
    obtain ⟨hvnl, hvtr⟩ := wfRawValB_spec hwf.1
    exact ⟨typed_line_ok (by decide) (by decide) hwf.2 hvnl hvtr,
      goodLine_cons2 (by decide) (by decide) (by decide)⟩

theorem mailLines_tel_ok {o : Option (List EmailEntry)}
    (h : wfOptList wfEntryB o = true) :
    ∀ l ∈ mailLines (("TEL").data) o, lineOK l ∧ goodLine l := by
  cases o with
  | none => intro l hl; simp [mailLines] at hl
  | some es =>
    simp only [wfOptList, Bool.and_eq_true, Bool.not_eq_true'] at h
    intro l hl
    rw [mailLines] at hl
    obtain ⟨e, he, rfl⟩ := List.mem_map.mp hl
    have hwf := List.all_eq_true.mp h.2 e he
    simp only [wfEntryB, Bool.and_eq_true] at hwf
    obtain ⟨hvnl, hvtr⟩ := wfRawValB_spec hwf.1
    exact ⟨typed_line_ok (by decide) (by decide) hwf.2 hvnl hvtr,
      goodLine_cons2 (by decide) (by decide) (by decide)⟩

theorem adrLines_ok {o : Option (List AdrEntry)}
    (h : wfOptList wfAdrB o = true) :
    ∀ l ∈ adrLines o, lineOK l ∧ goodLine l := by
  cases o with
  | none => intro l hl; simp [adrLines] at hl
  | some es =>
    simp only [wfOptList, Bool.and_eq_true, Bool.not_eq_true'] at h
    intro l hl
    rw [adrLines] at hl
    obtain ⟨a, ha, rfl⟩ := List.mem_map.mp hl
    have hwf := List.all_eq_true.mp h.2 a ha
    simp only [wfAdrB, Bool.and_eq_true] at hwf
    obtain ⟨hjnl, hjtr⟩ := joined_comps_facts hwf.1.2
    exact ⟨typed_line_ok (by decide) (by decide) hwf.2 hjnl hjtr,
      goodLine_cons2 (by decide) (by decide) (by decide)⟩

theorem urlLines_ok {o : Option (List Str)}
    (h : wfOptList wfRawValB o = true) :
    ∀ l ∈ urlLines o, lineOK l ∧ goodLine l := by
  cases o with
  | none => intro l hl; simp [urlLines] at hl
  | some us =>
    simp only [wfOptList, Bool.and_eq_true, Bool.not_eq_true'] at h
    intro l hl
    rw [urlLines] at hl
    obtain ⟨u, hu, rfl⟩ := List.mem_map.mp hl
    obtain ⟨hnl, htr⟩ := wfRawValB_spec (List.all_eq_true.mp h.2 u hu)
    exact ⟨lineOK_pre (by decide) hnl (by decide) (by decide) (by decide) htr,
      goodLine_cons2 (by decide) (by decide) (by decide)⟩

/-! ## Master round-trip lemmas -/

theorem wfVCard_spec {c : VCard} (h : wfVCard c = true) :
    c.version = some (("4.0").data) ∧ wfOpt wfUidB c.uid = true ∧
    wfOpt wfEscB c.fn = true ∧ wfOptList wfCompB c.n = true ∧
    wfOpt wfEscB c.title = true ∧ wfOptList wfCompB c.org = true ∧
    wfOptList wfEntryB c.email = true ∧ wfOptList wfEntryB c.tel = true ∧
    wfOptList wfAdrB c.adr = true ∧ wfOptList wfRawValB c.url = true ∧
    wfOpt wfEscB c.note = true ∧ wfOptList wfCatB c.categories = true ∧
    hasExtraKeyB c = true := by
  simp only [wfVCard, Bool.and_eq_true, beq_iff_eq] at h
  obtain ⟨⟨⟨⟨⟨⟨⟨⟨⟨⟨⟨⟨hv, hu⟩, hf⟩, hn⟩, ht⟩, ho⟩, he⟩, hte⟩, ha⟩, hur⟩,
    hno⟩, hca⟩, hex⟩ := h
  exact ⟨hv, hu, hf, hn, ht, ho, he, hte, ha, hur, hno, hca, hex⟩

theorem keyCount_gt {c : VCard} (hv : c.version.isSome = true)
    (he : hasExtraKeyB c = true) : 1 < c.keyCount := by
  simp only [hasExtraKeyB, Bool.or_eq_true] at he
  unfold VCard.keyCount
  rcases he with ((((((((((h | h) | h) | h) | h) | h) | h) | h) | h) | h) | h) <;>
    simp only [hv, h, if_true] <;> omega

theorem applyLine_version {cur : VCard} :
    applyLine cur (("VERSION:4.0").data) =
      { cur with version := some (("4.0").data) } := by
  unfold applyLine
  rw [show ("VERSION:4.0").data =
      ("VERSION").data ++ ':' :: ("4.0").data from rfl,
    parseProp_noparam (by decide) (by decide) (by decide)]
  exact addProp_VERSION cur (("4.0").data) []

/-- All the interior property lines of a well-formed card are valid
content lines. -/
theorem midLines_ok {c : VCard} (h : wfVCard c = true) :
    ∀ l ∈ (uidLines c.uid ++ fnLines c.fn ++ nLines c.n ++
      titleLines c.title ++ orgLines c.org ++
      mailLines (("EMAIL").data) c.email ++ mailLines (("TEL").data) c.tel ++
      adrLines c.adr ++ urlLines c.url ++ noteLines c.note ++
      catLines c.categories), lineOK l ∧ goodLine l := by
  obtain ⟨hv, hu, hf, hn, ht, ho, he, hte, ha, hur, hno, hca, hex⟩ :=
    wfVCard_spec h
  intro l hl
  simp only [List.mem_append] at hl
  rcases hl with ((((((((((hl | hl) | hl) | hl) | hl) | hl) | hl) | hl) |
    hl) | hl) | hl)
  exacts [uidLines_ok hu l hl, fnLines_ok hf l hl, nLines_ok hn l hl,
    titleLines_ok ht l hl, orgLines_ok ho l hl, mailLines_email_ok he l hl,
    mailLines_tel_ok hte l hl, adrLines_ok ha l hl, urlLines_ok hur l hl,
    noteLines_ok hno l hl, catLines_ok hca l hl]

/-- Processing the interior property lines rebuilds the card. -/
theorem procLines_mid {c : VCard} (h : wfVCard c = true) :
    procLines initCard (uidLines c.uid ++ fnLines c.fn ++ nLines c.n ++
      titleLines c.title ++ orgLines c.org ++
      mailLines (("EMAIL").data) c.email ++ mailLines (("TEL").data) c.tel ++
      adrLines c.adr ++ urlLines c.url ++ noteLines c.note ++
      catLines c.categories) = c := by
  obtain ⟨hv, hu, hf, hn, ht, ho, he, hte, ha, hur, hno, hca, hex⟩ :=
    wfVCard_spec h
  rw [procLines_append, procLines_append, procLines_append, procLines_append,
    procLines_append, procLines_append, procLines_append, procLines_append,
    procLines_append, procLines_append]
  rw [proc_uidLines hu rfl, proc_fnLines hf rfl, proc_nLines hn rfl,
    proc_titleLines ht rfl, proc_orgLines ho rfl, proc_emailSeg he rfl,
    proc_telSeg hte rfl, proc_adrSeg ha rfl, proc_urlSeg hur rfl,
    proc_noteLines hno rfl, proc_catLines hca rfl]
  cases c
  subst hv
  rfl

/-- Parsing the emitted lines of one well-formed card appends exactly that
card, from any loop state. -/
theorem parseLoop_card {c : VCard} (h : wfVCard c = true) :
    ∀ (cards : List VCard) (cur : VCard) (b : Bool),
    parseLoop (cardLines c) cards cur b = cards ++ [c] := by
  intro cards cur b
  rw [show cardLines c = ("BEGIN:VCARD").data :: ("VERSION:4.0").data ::
    ((uidLines c.uid ++ fnLines c.fn ++ nLines c.n ++ titleLines c.title ++
      orgLines c.org ++ mailLines (("EMAIL").data) c.email ++
      mailLines (("TEL").data) c.tel ++ adrLines c.adr ++ urlLines c.url ++
      noteLines c.note ++ catLines c.categories) ++
      [("END:VCARD").data]) from rfl]
  rw [parseLoop, if_pos rfl]
  rw [parseLoop_cons_good ⟨by decide, by decide, by decide, by decide⟩]
  have happ : applyLine initCard (("VERSION:4.0").data) = initCard := by
    rw [applyLine_version]
    exact rfl
  rw [happ]
  rw [parseLoop_good (fun l hl => (midLines_ok h l hl).2)]
  rw [procLines_mid h]
  rw [parseLoop, if_neg (by decide), if_pos rfl]
  rw [if_pos (keyCount_gt (by rw [(wfVCard_spec h).1]; rfl)
    (wfVCard_spec h).2.2.2.2.2.2.2.2.2.2.2.2)]
  rfl

/-- The serialized text of one well-formed card splits and trims back to
its emitted lines. -/
theorem stringify_lines {c : VCard} (h : wfVCard c = true) :
    (splitOnChar '\n' (stringifyVCard [c])).map trimWS = cardLines c := by
  rw [show stringifyVCard [c] = joinSep ['\r', '\n'] (cardLines c) from rfl]
  apply lines_roundtrip (by simp [cardLines])
  intro l hl
  rw [show cardLines c = ("BEGIN:VCARD").data :: ("VERSION:4.0").data ::
    ((uidLines c.uid ++ fnLines c.fn ++ nLines c.n ++ titleLines c.title ++
      orgLines c.org ++ mailLines (("EMAIL").data) c.email ++
      mailLines (("TEL").data) c.tel ++ adrLines c.adr ++ urlLines c.url ++
      noteLines c.note ++ catLines c.categories) ++
      [("END:VCARD").data]) from rfl] at hl
  rcases List.mem_cons.mp hl with hl | hl
  · subst hl
    exact ⟨by decide, by decide, by decide⟩
  rcases List.mem_cons.mp hl with hl | hl
  · subst hl
    exact ⟨by decide, by decide, by decide⟩
  rcases List.mem_append.mp hl with hl | hl
  · exact (midLines_ok h l hl).1
  · rw [List.mem_singleton] at hl
    subst hl
    exact ⟨by decide, by decide, by decide⟩

/-! ## C1: the wire round trip -/

/-- C1 (amended): the serialize/parse round trip is exact on the
well-formed class `wfVCard`: version fixed at `4.0`, present scalar fields
nonempty with no newline/trailing whitespace, fn/title/note free of
backslashes, `N`/`ORG`/`ADR` components free of backslashes and
semicolons, present array fields nonempty, `TYPE` parameters nonempty and
free of `:`/`;`/newline, categories comma-free and already trimmed, and at
least one field besides `version` present.  Outside this class the round
trip can fail (see the counterexample). -/
theorem wire_roundtrip_wf (c : VCard) (h : wfVCard c = true) :
    parseVCard (stringifyVCard [c]) = [c] := by
  unfold parseVCard
  rw [stringify_lines h]
  exact parseLoop_card h [] {} false

/-- C1 witness: a concrete well-formed record (with a comma and a newline
in its note) round-trips exactly. -/
theorem wire_roundtrip_wf_witness :
    wfVCard wfWitnessCard = true ∧
    parseVCard (stringifyVCard [wfWitnessCard]) = [wfWitnessCard] :=
  ⟨by decide, wire_roundtrip_wf wfWitnessCard (by decide)⟩

/-- C1 counterexample: a record whose `N` component contains a semicolon
is serialized with an escaped `\;`, but the parser splits the raw value on
`;` before unescaping, so the round trip changes both the number of
components and their content. -/
theorem wire_roundtrip_cex :
    parseVCard (stringifyVCard [cexSemiCard]) ≠ [cexSemiCard] ∧
    parseVCard (stringifyVCard [cexSemiCard]) =
      [{ version := some (("4.0").data), uid := some (("u").data),
                    n := some [("a\\").data, ("b").data] }] := by
  constructor
  · decide
  · decide

/-! ## C8: malformed records are silently dropped, not reported -/

/-- C8 (amended): `parseVCard` is a total function into a plain record
list with no error channel: a malformed record (here an unmatched
`BEGIN:VCARD` with properties but no `END:VCARD`) contributes no record
at all — it is silently discarded rather than reported as a
`MalformedDocument` error — while a following well-formed record still
parses exactly. -/
theorem malformed_record_silently_dropped (c : VCard)
    (h : wfVCard c = true) :
    parseVCard ((("BEGIN:VCARD\nUID:orphan\n").data) ++ stringifyVCard [c]) =
      [c] := by
  unfold parseVCard
  have hsp : splitOnChar '\n'
      ((("BEGIN:VCARD\nUID:orphan\n").data) ++ stringifyVCard [c]) =
      ("BEGIN:VCARD").data :: ("UID:orphan").data ::
        splitOnChar '\n' (stringifyVCard [c]) := by
    rw [show (("BEGIN:VCARD\nUID:orphan\n").data) ++ stringifyVCard [c] =
      ("BEGIN:VCARD").data ++ '\n' ::
        ((("UID:orphan").data) ++ '\n' :: stringifyVCard [c]) from by
        simp [List.append_assoc]]
    rw [splitOnChar_append (by decide), splitOnChar_append (by decide)]
  rw [hsp, List.map_cons, List.map_cons]
  rw [show trimWS (("BEGIN:VCARD").data) = ("BEGIN:VCARD").data from by decide]
  rw [show trimWS (("UID:orphan").data) = ("UID:orphan").data from by decide]
  rw [stringify_lines h]
  rw [parseLoop, if_pos rfl]
  rw [parseLoop_cons_good ⟨by decide, by decide, by decide, by decide⟩]
  exact parseLoop_card h [] _ true

/-- C8 witness: a concrete orphan `BEGIN` followed by a well-formed
record. -/
theorem malformed_record_silently_dropped_witness :
    parseVCard ((("BEGIN:VCARD\nUID:orphan\n").data) ++
      stringifyVCard [c8Card]) = [c8Card] :=
  malformed_record_silently_dropped c8Card (by decide)

/-- C8 counterexample: on a text whose first record is malformed, the
parser returns a plain list containing only the well-formed record; no
`MalformedDocument` (or any other) error value exists in its result. -/
theorem malformed_no_error_cex :
    parseVCard (("BEGIN:VCARD\nUID:a\nBEGIN:VCARD\nUID:b\nFN:Bob\nEND:VCARD").data) =
      [{ version := some (("4.0").data), uid := some (("b").data),
                    fn := some (("Bob").data) }] := by
  decide
